import Mathlib

/-!
Verification development for the `llm-prompt-snippets-manager` repository.

The Python modules relevant to the verified claims are embedded shallowly:

* `src/models/snippet_state.py` — `SnippetStateManager` (selection state machine);
* `src/gui/snippet_list.py` / `src/gui/components/filter_controls.py` — bubble
  filtering and free-text search;
* `src/models/metadata_manager.py`, `src/models/snippet.py`,
  `src/models/data_manager.py` — snippet storage and category/label metadata;
* `src/gui/snippet_dialog.py` — input validation before saving.

Python `dict`s (which preserve insertion order and have unique keys) are
embedded as association lists, Python `set`s of strings as duplicate-free
lists (only membership is ever used), and `uuid.uuid4()` as a deterministic
injective supply of fresh identifiers threaded through the state: freshness
of the generated ids with respect to the ids already in use — true with
overwhelming probability for real UUIDs — becomes an explicit hypothesis
where a claim needs it.
-/

namespace PromptSnippets

/-! ## Association-list and list-set primitives (embedding of `dict` / `set`) -/

/-- `d.get(k)` on a Python dict: first entry with the given key. -/
def alGet {α : Type} : List (String × α) → String → Option α
  | [], _ => none
  | p :: rest, k => if p.1 = k then some p.2 else alGet rest k

/-- `d[k] = v` on a Python dict: overwrite in place if the key is present
(keeping its position, as Python dicts do), otherwise append. -/
def alInsert {α : Type} : List (String × α) → String → α → List (String × α)
  | [], k, v => [(k, v)]
  | p :: rest, k, v =>
      if p.1 = k then (k, v) :: rest else p :: alInsert rest k v

/-- `d.pop(k, None)` on a Python dict: drop every entry with the key
(at most one in a genuine dict image). -/
def alErase {α : Type} (l : List (String × α)) (k : String) : List (String × α) :=
  l.filter (fun p => p.1 ≠ k)

/-- `s.add(x)` on a Python set of strings. -/
def setAdd (l : List String) (x : String) : List String :=
  if x ∈ l then l else l ++ [x]

/-- `s.discard(x)` on a Python set of strings. -/
def setDiscard (l : List String) (x : String) : List String :=
  l.filter (fun y => y ≠ x)

/-- The keys of an association list are duplicate-free; every list that
models the image of a Python `dict` satisfies this. -/
def keysNodup {α : Type} (l : List (String × α)) : Prop :=
  (l.map Prod.fst).Nodup

instance {α : Type} (l : List (String × α)) : Decidable (keysNodup l) := by
  unfold keysNodup; infer_instance

/-! ## `src/models/snippet_state.py` — the selection state machine -/

/-- `class SnippetState(Enum)` with members `UNSELECTED` and `SELECTED`. -/
inductive SnippetState where
  | unselected
  | selected
deriving DecidableEq, Repr

/-- `@dataclass class SnippetStateManager` (fields in source order). -/
structure SnippetStateManager where
  state_map : List (String × SnippetState)
  selected_ids : List String
  category_selections : List (String × String)
  is_filtered : Bool
  search_text : String
  filtered_ids : List String
deriving DecidableEq, Repr

namespace SnippetStateManager

/-- `SnippetStateManager.create()`. -/
def create : SnippetStateManager :=
  { state_map := []
    selected_ids := []
    category_selections := []
    is_filtered := false
    search_text := ""
    filtered_ids := [] }

/-- `get_state`: `self.state_map.get(snippet_id, SnippetState.UNSELECTED)`. -/
def get_state (m : SnippetStateManager) (snippet_id : String) : SnippetState :=
  (alGet m.state_map snippet_id).getD SnippetState.unselected

/-- `set_state(snippet_id, state, category=None, exclusive=False)`.

The `category` argument is `Optional[str]`; Python's truthiness test
`if exclusive and category:` (and `if category and ...:`) treats both `None`
and the empty string as absent, which is modelled explicitly below. -/
def set_state (m : SnippetStateManager) (snippet_id : String)
    (state : Option SnippetState) (category : Option String) (exclusive : Bool) :
    SnippetStateManager :=
  match state with
  | none =>
      { m with
        state_map := alErase m.state_map snippet_id
        selected_ids := setDiscard m.selected_ids snippet_id }
  | some st =>
      let m1 := { m with state_map := alInsert m.state_map snippet_id st }
      if st = SnippetState.selected then
        let m2 := { m1 with selected_ids := setAdd m1.selected_ids snippet_id }
        match category with
        | some c =>
            if exclusive ∧ c ≠ "" then
              { m2 with category_selections := alInsert m2.category_selections c snippet_id }
            else m2
        | none => m2
      else
        let m2 := { m1 with selected_ids := setDiscard m1.selected_ids snippet_id }
        match category with
        | some c =>
            if c ≠ "" ∧ alGet m2.category_selections c = some snippet_id then
              { m2 with category_selections := alErase m2.category_selections c }
            else m2
        | none => m2

/-- `can_select_snippet(snippet_id, category, exclusive)`. -/
def can_select_snippet (m : SnippetStateManager) (snippet_id category : String)
    (exclusive : Bool) : Bool :=
  if exclusive then
    match alGet m.category_selections category with
    | none => true
    | some current_selection => current_selection = snippet_id
  else true

/-- `clear_all_selections()`: clears the two selection collections, then
deselects every snippet that `state_map` still marks `SELECTED`, iterating
over a snapshot of the keys (the loop never removes keys, so the snapshot
taken before the loop equals the key list at every iteration). -/
def clear_all_selections (m : SnippetStateManager) : SnippetStateManager :=
  let m1 := { m with selected_ids := [], category_selections := [] }
  (m1.state_map.map Prod.fst).foldl
    (fun acc snippet_id =>
      if alGet acc.state_map snippet_id = some SnippetState.selected then
        set_state acc snippet_id (some SnippetState.unselected) none false
      else acc)
    m1

/-- `set_search_filter(search_text, filtered_ids)`. -/
def set_search_filter (m : SnippetStateManager) (searchText : String)
    (filteredIds : List String) : SnippetStateManager :=
  { m with
    search_text := searchText
    filtered_ids := filteredIds
    is_filtered := searchText ≠ "" }

/-- `clear_search_filter()`. -/
def clear_search_filter (m : SnippetStateManager) : SnippetStateManager :=
  { m with search_text := "", filtered_ids := [], is_filtered := false }

/-- `clear_selections(snippet_ids)`: for each id, pop it from `state_map`
and `selected_ids` and drop every `category_selections` entry whose value
is that id. -/
def clear_selections (m : SnippetStateManager) (snippet_ids : List String) :
    SnippetStateManager :=
  snippet_ids.foldl
    (fun acc snippet_id =>
      { acc with
        state_map := alErase acc.state_map snippet_id
        selected_ids := setDiscard acc.selected_ids snippet_id
        category_selections :=
          acc.category_selections.filter (fun p => p.2 ≠ snippet_id) })
    m

end SnippetStateManager

/-! ## Traces of calls on the state manager

`Op` lists the mutating and filter calls of `SnippetStateManager` exactly as
they can be issued by the GUI layer (`src/gui/snippet_list.py`); a state is
reachable when it is `applyOps create ops` for some trace `ops`. -/

inductive Op where
  | opSetState (snippet_id : String) (state : Option SnippetState)
      (category : Option String) (exclusive : Bool)
  | opClearSelections (snippet_ids : List String)
  | opClearAllSelections
  | opSetSearchFilter (text : String) (ids : List String)
  | opClearSearchFilter
deriving DecidableEq, Repr

def applyOp (m : SnippetStateManager) : Op → SnippetStateManager
  | Op.opSetState sid st cat ex => m.set_state sid st cat ex
  | Op.opClearSelections ids => m.clear_selections ids
  | Op.opClearAllSelections => m.clear_all_selections
  | Op.opSetSearchFilter t ids => m.set_search_filter t ids
  | Op.opClearSearchFilter => m.clear_search_filter

def applyOps (m : SnippetStateManager) (ops : List Op) : SnippetStateManager :=
  ops.foldl applyOp m

/-- A call keeps snippet `A` holding the exclusive slot of category `c` when
it does not deselect or remove `A`, and any other exclusive selection it
performs in category `c` passes the `can_select_snippet` guard (which is how
the GUI issues exclusive selections). `clear_all_selections` always releases
the slot, so it is never such a call. -/
def keepsExclusiveHold (m : SnippetStateManager) (A c : String) : Op → Bool
  | Op.opSetState sid st cat ex =>
      (if sid = A then decide (st = some SnippetState.selected) else true) &&
      (match st, cat with
       | some SnippetState.selected, some cc =>
           !ex || decide (cc ≠ c) || m.can_select_snippet sid cc true
       | _, _ => true)
  | Op.opClearSelections ids => decide (A ∉ ids)
  | Op.opClearAllSelections => false
  | Op.opSetSearchFilter _ _ => true
  | Op.opClearSearchFilter => true

/-- A trace is guarded (with respect to `A` holding category `c`) when every
step is, each judged against the state it runs in. -/
def holdOkB (A c : String) : SnippetStateManager → List Op → Bool
  | _, [] => true
  | m, op :: rest => keepsExclusiveHold m A c op && holdOkB A c (applyOp m op) rest

/-! ### The category-selection invariant (claim C1) -/

/-- A snippet universe: id ↦ (category, exclusive), the two fields the GUI
passes to `set_state` from the snippet record (`snippet['category']`,
`snippet['exclusive']`). -/
abbrev SnippetEnv : Type := List (String × String × Bool)

/-- A `set_state` call is well-formed when it carries a concrete state and
the snippet's own category and exclusive flag, as every `set_state` call
in `src/gui/snippet_list.py` does; the other calls are always well-formed. -/
def wellFormedOp (env : SnippetEnv) : Op → Bool
  | Op.opSetState sid st cat ex =>
      match st, cat with
      | some _, some c => decide (alGet env sid = some (c, ex))
      | _, _ => false
  | _ => true

/-- No snippet has the empty string as its category (the dialog refuses an
empty category field). -/
abbrev envCategoriesNonempty (env : SnippetEnv) : Prop :=
  ∀ p ∈ env, p.2.1 ≠ ""

/-- The invariant of claim C1: `category_selections` is a dict image, and
every slot entry `c ↦ s` has `s` selected, with `s`'s category equal to `c`
and `s` exclusive. -/
def SelectionInvariant (env : SnippetEnv) (m : SnippetStateManager) : Prop :=
  keysNodup m.category_selections ∧
  ∀ c s : String, alGet m.category_selections c = some s →
    s ∈ m.selected_ids ∧ alGet env s = some (c, true)

/-! ## Python string primitives, modelled charwise

`str.lower()`, single-character `str.replace`, the substring test `in` and
`str.strip()` are modelled on the character list underlying the string, so
that every definition evaluates inside the kernel. -/

/-- `s.lower()` (ASCII case mapping, as `Char.toLower`). -/
def pyLower (s : String) : String :=
  String.mk (s.data.map Char.toLower)

/-- `s.replace(old, new)` for single characters `old`/`new`. -/
def pyReplaceChar (s : String) (old new : Char) : String :=
  String.mk (s.data.map (fun ch => if ch = old then new else ch))

/-- `s.strip()`: drop leading and trailing whitespace. -/
def pyStrip (s : String) : String :=
  String.mk (((s.data.dropWhile Char.isWhitespace).reverse.dropWhile
    Char.isWhitespace).reverse)

def charListPrefix : List Char → List Char → Bool
  | [], _ => true
  | _ :: _, [] => false
  | a :: as, b :: bs => a = b && charListPrefix as bs

def charListInfix (needle : List Char) : List Char → Bool
  | [] => charListPrefix needle []
  | b :: bs => charListPrefix needle (b :: bs) || charListInfix needle bs

/-- `needle in hay` on Python strings (substring test). -/
def pyIn (needle hay : String) : Bool :=
  charListInfix needle.data hay.data

/-- `ch in s` on a Python string, for a single character. -/
def pyHasChar (s : String) (ch : Char) : Bool :=
  s.data.contains ch

/-! ## GUI filtering (`src/gui/snippet_list.py`, `src/gui/components/filter_controls.py`) -/

/-- A snippet record as the GUI holds it (`load_snippets_for_gui` format):
category and labels as display strings. -/
structure GuiSnippet where
  id : String
  name : String
  category : String
  prompt_text : String
  labels : List String
  exclusive : Bool
deriving DecidableEq, Repr

/-- `SnippetList._get_bubble_filtered_ids` and (character-identical logic)
`FilterControls.get_filtered_ids`: `filter_mode` is the string the mode
variable holds (`"AND"` or `"OR"`); active filters are Python sets, used
only through `issubset` / `intersection`. In AND mode the category test is
`active_category_filters.issubset({snippet['category']})`. -/
def get_filtered_ids (all_snippets : List GuiSnippet)
    (active_category_filters active_label_filters : List String)
    (filter_mode : String) : List String :=
  if active_category_filters = [] ∧ active_label_filters = [] then
    all_snippets.map (fun s => s.id)
  else
    (all_snippets.filter (fun snippet =>
      let snippet_labels := snippet.labels
      if filter_mode = "AND" then
        (active_category_filters = [] ∨
          ∀ c ∈ active_category_filters, c = snippet.category : Bool) &&
        (active_label_filters = [] ∨
          ∀ lab ∈ active_label_filters, lab ∈ snippet_labels : Bool)
      else
        (active_category_filters.contains snippet.category) ||
        (active_label_filters.any (fun lab => snippet_labels.contains lab)))).map
      (fun s => s.id)

/-- The per-snippet text test in `SnippetList._on_search_changed`
(lines 854-872): each field is checked lowercased with underscores replaced
by spaces, and also lowercased as stored. -/
def text_match_on_search_changed (search_text : String) (s : GuiSnippet) : Bool :=
  let searchable_name := pyReplaceChar (pyLower s.name) '_' ' '
  let searchable_category := pyReplaceChar (pyLower s.category) '_' ' '
  let searchable_prompt := pyReplaceChar (pyLower s.prompt_text) '_' ' '
  let searchable_labels := s.labels.map (fun lab => pyReplaceChar (pyLower lab) '_' ' ')
  pyIn search_text searchable_name ||
  pyIn search_text searchable_category ||
  pyIn search_text searchable_prompt ||
  searchable_labels.any (fun lab => pyIn search_text lab) ||
  pyIn search_text (pyLower s.name) ||
  pyIn search_text (pyLower s.category) ||
  pyIn search_text (pyLower s.prompt_text) ||
  s.labels.any (fun lab => pyIn search_text (pyLower lab))

/-- The per-snippet text test in `SnippetList._apply_bubble_filters`
(lines 633-638): only the fields as stored, lowercased — no
underscore-to-space normalization. -/
def text_match_in_apply_bubble_filters (search_text : String) (s : GuiSnippet) : Bool :=
  pyIn search_text (pyLower s.name) ||
  pyIn search_text (pyLower s.category) ||
  pyIn search_text (pyLower s.prompt_text) ||
  s.labels.any (fun lab => pyIn search_text (pyLower lab))

/-- `text_matching_ids` as computed on the `_on_search_changed` path. -/
def on_search_changed_text_ids (search_text : String) (snips : List GuiSnippet) :
    List String :=
  (snips.filter (text_match_on_search_changed search_text)).map (fun s => s.id)

/-- `text_matching_ids` as computed on the `_apply_bubble_filters` path. -/
def apply_bubble_filters_text_ids (search_text : String) (snips : List GuiSnippet) :
    List String :=
  (snips.filter (text_match_in_apply_bubble_filters search_text)).map (fun s => s.id)

/-- The text-match rule in the words of the claim (refinement comparison):
the query is a substring of the field lowercased as stored, or with
underscores replaced by spaces. -/
abbrev specFieldMatch (q f : String) : Prop :=
  pyIn q (pyLower f) = true ∨ pyIn q (pyReplaceChar (pyLower f) '_' ' ') = true

/-- The claim's characterization of a text match: some field among the
name, the category name, the prompt text and the labels matches. -/
abbrev specTextMatch (q : String) (s : GuiSnippet) : Prop :=
  specFieldMatch q s.name ∨ specFieldMatch q s.category ∨
    specFieldMatch q s.prompt_text ∨ ∃ lab ∈ s.labels, specFieldMatch q lab

/-! ## `src/models/metadata_manager.py` — categories and labels

The metadata file's two item dicts are association lists. `uuid.uuid4()` is
modelled by the injective supply `genId` indexed by a counter threaded
through the state; freshness of the generated ids, which holds for real
UUIDs with overwhelming probability, is an explicit hypothesis where
needed. The `dt_created` timestamp field (wall-clock time, used by no
claim) is omitted. -/

/-- A category metadata record (`ensure_category_exists` fields). -/
structure CategoryItem where
  name : String
  sort_order : Nat
  color : Option String
  usage_count : Nat
deriving DecidableEq, Repr

/-- A label metadata record (`ensure_label_exists` fields). -/
structure LabelItem where
  name : String
  usage_count : Nat
deriving DecidableEq, Repr

/-- `metadata["categories"]["items"]` and `metadata["labels"]["items"]`. -/
structure Metadata where
  categories : List (String × CategoryItem)
  labels : List (String × LabelItem)
deriving DecidableEq, Repr

/-- The fresh-id supply standing in for `str(uuid.uuid4())`: injective by
construction (the length of the underlying character list determines the
index). -/
def genId (n : Nat) : String :=
  String.mk (List.replicate (n + 1) 'u')

/-- The `for ... if data["name"] == name: return id` scan of
`ensure_category_exists` / `ensure_label_exists`: first id whose record
carries the given name. -/
def findIdByName {α : Type} (getName : α → String) :
    List (String × α) → String → Option String
  | [], _ => none
  | p :: rest, n =>
      if getName p.2 = n then some p.1 else findIdByName getName rest n

/-- `metadata[item_type]["items"][item_id][...] = f(...)` guarded by
`if item_id in ...`: update the record at a key in place (no-op when the
key is absent, exactly as the guard makes the Python code behave). -/
def adjustCount {α : Type} (upd : α → α) : List (String × α) → String →
    List (String × α)
  | [], _ => []
  | p :: rest, i =>
      (if p.1 = i then (p.1, upd p.2) else p) :: adjustCount upd rest i

/-- `ensure_category_exists(category_name, sort_order=5, color=None)`;
returns the id together with the updated metadata and id-supply counter. -/
def ensure_category_exists (meta : Metadata) (ctr : Nat) (category_name : String) :
    String × Metadata × Nat :=
  match findIdByName CategoryItem.name meta.categories category_name with
  | some cat_id => (cat_id, meta, ctr)
  | none =>
      let new_id := genId ctr
      (new_id,
        { meta with categories := meta.categories ++
            [(new_id,
              { name := category_name, sort_order := 5, color := none,
                usage_count := 0 })] },
        ctr + 1)

/-- `ensure_label_exists(label_name)`. -/
def ensure_label_exists (meta : Metadata) (ctr : Nat) (label_name : String) :
    String × Metadata × Nat :=
  match findIdByName LabelItem.name meta.labels label_name with
  | some label_id => (label_id, meta, ctr)
  | none =>
      let new_id := genId ctr
      (new_id,
        { meta with labels := meta.labels ++
            [(new_id, { name := label_name, usage_count := 0 })] },
        ctr + 1)

/-- `ensure_labels_exist(label_names)`: left-to-right. -/
def ensure_labels_exist : Metadata → Nat → List String →
    List String × Metadata × Nat
  | meta, ctr, [] => ([], meta, ctr)
  | meta, ctr, n :: rest =>
      let r1 := ensure_label_exists meta ctr n
      let r2 := ensure_labels_exist r1.2.1 r1.2.2 rest
      (r1.1 :: r2.1, r2.2.1, r2.2.2)

/-- `usage_count += 1` on a category record. -/
def catIncr (it : CategoryItem) : CategoryItem :=
  { it with usage_count := it.usage_count + 1 }

/-- `usage_count = max(0, usage_count - 1)` on a category record
(truncated subtraction on `Nat`). -/
def catDecr (it : CategoryItem) : CategoryItem :=
  { it with usage_count := it.usage_count - 1 }

/-- `usage_count += 1` on a label record. -/
def labIncr (it : LabelItem) : LabelItem :=
  { it with usage_count := it.usage_count + 1 }

/-- `usage_count = max(0, usage_count - 1)` on a label record. -/
def labDecr (it : LabelItem) : LabelItem :=
  { it with usage_count := it.usage_count - 1 }

/-- `increment_snippet_count("categories", item_id)`. -/
def increment_category_count (meta : Metadata) (i : String) : Metadata :=
  { meta with categories := adjustCount catIncr meta.categories i }

/-- `decrement_snippet_count("categories", item_id)`. -/
def decrement_category_count (meta : Metadata) (i : String) : Metadata :=
  { meta with categories := adjustCount catDecr meta.categories i }

/-- `increment_snippet_count("labels", item_id)`. -/
def increment_label_count (meta : Metadata) (i : String) : Metadata :=
  { meta with labels := adjustCount labIncr meta.labels i }

/-- `decrement_snippet_count("labels", item_id)`. -/
def decrement_label_count (meta : Metadata) (i : String) : Metadata :=
  { meta with labels := adjustCount labDecr meta.labels i }

/-- `update_snippet_counts_for_snippet(category_name, label_names, increment)`:
ensure category and labels exist, then bump every count. -/
def update_snippet_counts_for_snippet (meta : Metadata) (ctr : Nat)
    (category_name : String) (label_names : List String) (increment : Bool) :
    (String × List String) × Metadata × Nat :=
  let rc := ensure_category_exists meta ctr category_name
  let rl := ensure_labels_exist rc.2.1 rc.2.2 label_names
  let category_id := rc.1
  let label_ids := rl.1
  let m3 :=
    if increment then increment_category_count rl.2.1 category_id
    else decrement_category_count rl.2.1 category_id
  let m4 := label_ids.foldl
    (fun mm label_id =>
      if increment then increment_label_count mm label_id
      else decrement_label_count mm label_id) m3
  ((category_id, label_ids), m4, rl.2.2)

/-! ## `src/models/snippet.py` -/

/-- A snippet in storage format (`Snippet.to_dict`). -/
structure SnippetRec where
  id : String
  name : String
  category_id : String
  prompt_text : String
  label_ids : List String
  exclusive : Bool
deriving DecidableEq, Repr

/-- `Snippet.get_category_name()`. -/
def get_category_name (s : SnippetRec) (meta : Metadata) : String :=
  match alGet meta.categories s.category_id with
  | some it => it.name
  | none => "Unknown Category"

/-- `Snippet.get_label_names()`: missing label ids are silently skipped. -/
def get_label_names (s : SnippetRec) (meta : Metadata) : List String :=
  s.label_ids.filterMap (fun lid => (alGet meta.labels lid).map LabelItem.name)

/-- `Snippet.create(name, category, prompt_text, labels, exclusive)`. -/
def snippet_create (name category prompt_text : String) (labels : List String)
    (exclusive : Bool) (meta : Metadata) (ctr : Nat) :
    SnippetRec × Metadata × Nat :=
  let r := update_snippet_counts_for_snippet meta ctr category labels true
  ({ id := genId r.2.2, name := name, category_id := r.1.1,
     prompt_text := prompt_text, label_ids := r.1.2, exclusive := exclusive },
    r.2.1, r.2.2 + 1)

/-- `Snippet.delete()`: decrement the usage counts through the display
names currently recorded for the snippet's ids. -/
def snippet_delete (s : SnippetRec) (meta : Metadata) (ctr : Nat) :
    Metadata × Nat :=
  let r := update_snippet_counts_for_snippet meta ctr
    (get_category_name s meta) (get_label_names s meta) false
  (r.2.1, r.2.2)

/-! ## `src/models/data_manager.py` -/

/-- The `strip().lower().replace(' ', '_').replace('-', '_')` pipeline of
`sanitize_category_label`. -/
def sanitizeTransform (text : String) : String :=
  pyReplaceChar (pyReplaceChar (pyLower (pyStrip text)) ' ' '_') '-' '_'

/-- `sanitize_category_label(text, is_category)`; `none` models the
`ValueError` raised when a category contains a comma. -/
def sanitize_category_label (text : String) (is_category : Bool) : Option String :=
  if text = "" then some ""
  else if is_category ∧ pyHasChar text ',' = true then none
  else some (sanitizeTransform text)

/-- The dict handed to `add_snippet` / `update_snippet` by the GUI
(string-based category and labels). -/
structure SnippetData where
  name : String
  category : String
  prompt_text : String
  labels : List String
  exclusive : Bool
deriving DecidableEq, Repr

/-- The persistent state `DataManager` acts on: the snippets file, the
metadata file, and the fresh-uuid supply. File writes are modelled as
always succeeding. -/
structure DMState where
  snippets : List SnippetRec
  meta : Metadata
  ctr : Nat
deriving DecidableEq, Repr

/-- `DataManager.add_snippet(snippet_data)`: sanitize (a comma in the
category raises, is caught, and returns `False` before any mutation),
create the snippet (which bumps metadata), append, save. -/
def add_snippet (data : SnippetData) (st : DMState) : Bool × DMState :=
  match sanitize_category_label data.category true with
  | none => (false, st)
  | some category =>
      let labels := data.labels.map
        (fun lab => (sanitize_category_label lab false).getD "")
      let r := snippet_create data.name category data.prompt_text labels
        data.exclusive st.meta st.ctr
      (true, { snippets := st.snippets ++ [r.1], meta := r.2.1, ctr := r.2.2 })

/-- `DataManager.delete_snippets(snippet_ids)`: decrement metadata for every
matching snippet, then drop them. -/
def delete_snippets (snippet_ids : List String) (st : DMState) : Bool × DMState :=
  let snippets_to_delete := st.snippets.filter (fun s => snippet_ids.contains s.id)
  let md := snippets_to_delete.foldl
    (fun acc s => snippet_delete s acc.1 acc.2) (st.meta, st.ctr)
  (true,
    { snippets := st.snippets.filter (fun s => !(snippet_ids.contains s.id)),
      meta := md.1, ctr := md.2 })

/-- The `for i, s ...: if match: replace; break` loop of `update_snippet`. -/
def replaceFirstById : List SnippetRec → String → SnippetRec → List SnippetRec
  | [], _, _ => []
  | s :: rest, sid, new =>
      if s.id = sid then new :: rest else s :: replaceFirstById rest sid new

/-- `DataManager.update_snippet(snippet_data)` (the payload's `id` passed
separately): if the id is not found, return `False` without touching
anything; otherwise decrement the old snippet's counts, create the new one
(note: no sanitization on this path), keep the original id, replace. -/
def update_snippet (data_id : String) (data : SnippetData) (st : DMState) :
    Bool × DMState :=
  match st.snippets.find? (fun s => s.id = data_id) with
  | none => (false, st)
  | some existing =>
      let rd := snippet_delete existing st.meta st.ctr
      let rc := snippet_create data.name data.category data.prompt_text
        data.labels data.exclusive rd.1 rd.2
      let new_snippet := { rc.1 with id := data_id }
      (true,
        { snippets := replaceFirstById st.snippets data_id new_snippet,
          meta := rc.2.1, ctr := rc.2.2 })

/-! ## `MetadataManager.validate_metadata_references` -/

/-- The orphaned-category collection loop: ids in first-seen order (the
Python code collects them in a `set`; only membership and the set of
created records matter downstream). The guard `if category_id and ...`
skips falsy ids — in particular the empty string. -/
def collectOrphanCategoryIds (snips : List SnippetRec) (meta : Metadata) :
    List String :=
  snips.foldl
    (fun acc s =>
      if s.category_id ≠ "" ∧ alGet meta.categories s.category_id = none ∧
          s.category_id ∉ acc
      then acc ++ [s.category_id] else acc) []

/-- The orphaned-label collection loop (no falsiness guard on label ids). -/
def collectOrphanLabelIds (snips : List SnippetRec) (meta : Metadata) :
    List String :=
  snips.foldl
    (fun acc s =>
      s.label_ids.foldl
        (fun acc2 lid =>
          if alGet meta.labels lid = none ∧ lid ∉ acc2
          then acc2 ++ [lid] else acc2) acc) []

/-- `validate_metadata_references(snippets_data)`: synthesize an
"Unknown Category" / "Unknown Label" record with `usage_count` 0 under each
orphaned id. The snippets themselves are not touched (the function only
rewrites metadata), and no failure path exists. -/
def validate_metadata_references (snips : List SnippetRec) (meta : Metadata) :
    Metadata :=
  let orphaned_categories := collectOrphanCategoryIds snips meta
  let orphaned_labels := collectOrphanLabelIds snips meta
  { categories := meta.categories ++ orphaned_categories.map
      (fun i => (i, { name := "Unknown Category", sort_order := 5,
                      color := none, usage_count := 0 })),
    labels := meta.labels ++ orphaned_labels.map
      (fun i => (i, { name := "Unknown Label", usage_count := 0 })) }

/-! ## `src/gui/snippet_dialog.py` — validation before saving -/

/-- `[l.strip() for l in labels_var.split(',') if l.strip()]`, with
`split(',')` modelled charwise. -/
def splitCharAux (sep : Char) : List Char → List Char → List (List Char)
  | [], acc => [acc.reverse]
  | c :: rest, acc =>
      if c = sep then acc.reverse :: splitCharAux sep rest []
      else splitCharAux sep rest (c :: acc)

def pySplitChar (s : String) (sep : Char) : List String :=
  (splitCharAux sep s.data []).map String.mk

/-- `SnippetDialog._validate_fields`: the three required fields must be
non-empty after stripping, and the prompt must not contain a semicolon. -/
def validate_fields (name_var category_var prompt_var : String) : Bool :=
  !(pyStrip name_var = "" ∨ pyStrip category_var = "" ∨
      pyStrip prompt_var = "" : Bool) &&
  !(pyHasChar (pyStrip prompt_var) ';')

/-- The result record `SnippetDialog._prepare_result` builds. -/
structure DialogResult where
  id : Option String
  name : String
  category : String
  labels : List String
  prompt_text : String
  exclusive : Bool
deriving DecidableEq, Repr

/-- `SnippetDialog._prepare_result`: validation first (`False` leaves
`self.result` unset, modelled as `none`), then the trimmed values, then the
semicolon re-check on the trimmed prompt. -/
def prepare_result (snippet_id : Option String)
    (name_var category_var labels_var prompt_var : String) (exclusive_var : Bool) :
    Option DialogResult :=
  if validate_fields name_var category_var prompt_var = false then none
  else
    let name := pyStrip name_var
    let category := pyStrip category_var
    let labels := (pySplitChar labels_var ',').map pyStrip |>.filter (· ≠ "")
    let prompt_text := pyStrip prompt_var
    if pyHasChar prompt_text ';' then none
    else some
      { id := snippet_id, name := name, category := category, labels := labels,
        prompt_text := prompt_text, exclusive := exclusive_var }

/-- A concrete one-snippet store for witnesses. -/
def wStore : DMState :=
  { snippets := [{ id := "id1", name := "n", category_id := "cid",
                   prompt_text := "p", label_ids := [], exclusive := false }],
    meta := { categories := [], labels := [] },
    ctr := 0 }

/-- A concrete payload for witnesses. -/
def wData : SnippetData :=
  { name := "n", category := "c", prompt_text := "p", labels := [],
    exclusive := false }

/-- The empty store. -/
def emptyStore : DMState :=
  { snippets := [], meta := { categories := [], labels := [] }, ctr := 0 }

/-- A payload whose prompt text contains the reserved `';'`. -/
def semicolonData : SnippetData :=
  { name := "name", category := "cat", prompt_text := "a; b", labels := [],
    exclusive := false }

/-- A concrete snippet for the C8 witness: its `category_id` and single
label id have no metadata record. -/
def wOrphanSnippet : SnippetRec :=
  { id := "s1", name := "n", category_id := "cid9", prompt_text := "p",
    label_ids := ["lid3"], exclusive := false }

/-- The empty metadata store. -/
def emptyMeta : Metadata := { categories := [], labels := [] }

/-- A store with one category and one label already in use, for the C4
witness. -/
def wRoundStore : DMState :=
  { snippets := [],
    meta := { categories := [("cid0", { name := "my_cat", sort_order := 5,
                                        color := none, usage_count := 3 })],
              labels := [("lid0", { name := "x", usage_count := 2 })] },
    ctr := 0 }

/-- A payload whose category sanitizes onto the existing record and whose
labels mix an existing name, a new name, and a duplicate. -/
def wRoundData : SnippetData :=
  { name := "n", category := "My Cat", prompt_text := "p",
    labels := ["x", "z", "x"], exclusive := true }

theorem alGet_insert {α : Type} (l : List (String × α)) (k j : String) (v : α) :
    alGet (alInsert l k v) j = if k = j then some v else alGet l j := by
  induction l with
  | nil =>
      by_cases hkj : k = j <;> simp [alInsert, alGet, hkj]
  | cons p rest ih =>
      by_cases hpk : p.1 = k
      · by_cases hkj : k = j <;> simp [alInsert, alGet, hpk, hkj]
      · have step : alInsert (p :: rest) k v = p :: alInsert rest k v := by
          simp [alInsert, hpk]
        rw [step]
        by_cases hpj : p.1 = j
        · have hkj : ¬ k = j := fun h => hpk (h ▸ hpj)
          simp [alGet, hpj, hkj]
        · simp [alGet, hpj, ih]

theorem alGet_erase {α : Type} (l : List (String × α)) (k j : String) :
    alGet (alErase l k) j = if k = j then none else alGet l j := by
  induction l with
  | nil =>
      by_cases hkj : k = j <;> simp [alErase, alGet, hkj]
  | cons p rest ih =>
      by_cases hpk : p.1 = k
      · have step : alErase (p :: rest) k = alErase rest k := by
          simp [alErase, List.filter, hpk]
        rw [step, ih]
        by_cases hkj : k = j
        · simp [hkj]
        · have hpj : ¬ p.1 = j := fun h => hkj (hpk ▸ h)
          simp [alGet, hkj, hpj]
      · have step : alErase (p :: rest) k = p :: alErase rest k := by
          simp [alErase, List.filter, hpk]
        rw [step]
        by_cases hpj : p.1 = j
        · have hkj : ¬ k = j := fun h => hpk (h ▸ hpj.symm ▸ rfl)
          simp [alGet, hpj, hkj]
        · simp [alGet, hpj, ih]

theorem mem_setAdd (l : List String) (x y : String) :
    y ∈ setAdd l x ↔ y ∈ l ∨ y = x := by
  by_cases hx : x ∈ l
  · constructor
    · intro h; exact Or.inl (by simp [setAdd, hx] at h; exact h)
    · intro h
      rcases h with h | h
      · unfold setAdd; rw [if_pos hx]; exact h
      · subst h; unfold setAdd; rw [if_pos hx]; exact hx
  · simp [setAdd, hx]

theorem alGet_mem {α : Type} {l : List (String × α)} {k : String} {v : α}
    (h : alGet l k = some v) : (k, v) ∈ l := by
  induction l with
  | nil => simp [alGet] at h
  | cons p rest ih =>
      by_cases hpk : p.1 = k
      · simp [alGet, hpk] at h
        subst hpk; subst h
        exact List.mem_cons_self _ _
      · simp [alGet, hpk] at h
        exact List.mem_cons_of_mem _ (ih h)

theorem alGet_none_of_not_mem_keys {α : Type} {l : List (String × α)} {k : String}
    (h : k ∉ l.map Prod.fst) : alGet l k = none := by
  induction l with
  | nil => rfl
  | cons p rest ih =>
      simp only [List.map_cons, List.mem_cons] at h
      push_neg at h
      have hpk : p.1 ≠ k := fun hh => h.1 hh.symm
      simp [alGet, hpk]
      exact ih h.2

theorem alGet_of_mem_nodup {α : Type} {l : List (String × α)} {k : String} {v : α}
    (hnd : keysNodup l) (h : (k, v) ∈ l) : alGet l k = some v := by
  induction l with
  | nil => simp at h
  | cons p rest ih =>
      unfold keysNodup at hnd
      simp only [List.map_cons, List.nodup_cons] at hnd
      rcases List.mem_cons.mp h with h | h
      · subst h; simp [alGet]
      · have hpk : p.1 ≠ k := by
          intro hpk
          exact hnd.1 (hpk ▸ (List.mem_map.mpr ⟨(k, v), h, rfl⟩))
        simp [alGet, hpk]
        exact ih hnd.2 h

theorem keys_alInsert {α : Type} (l : List (String × α)) (k : String) (v : α) :
    (alInsert l k v).map Prod.fst =
      if k ∈ l.map Prod.fst then l.map Prod.fst else l.map Prod.fst ++ [k] := by
  induction l with
  | nil => simp [alInsert]
  | cons p rest ih =>
      by_cases hpk : p.1 = k
      · simp [alInsert, hpk]
      · have hkp : ¬ k = p.1 := fun h => hpk h.symm
        simp only [alInsert, hpk, if_false, List.map_cons, ih, List.mem_cons, hkp,
          false_or]
        by_cases hk : k ∈ rest.map Prod.fst <;> simp [hk]

theorem keysNodup_insert {α : Type} {l : List (String × α)} (k : String) (v : α)
    (hnd : keysNodup l) : keysNodup (alInsert l k v) := by
  unfold keysNodup at hnd ⊢
  rw [keys_alInsert]
  by_cases hk : k ∈ l.map Prod.fst
  · simpa [hk] using hnd
  · simp only [hk, if_false]
    rw [List.nodup_append]
    exact ⟨hnd, List.nodup_singleton k, by simpa using hk⟩

theorem keysNodup_filter {α : Type} {l : List (String × α)} (P : String × α → Bool)
    (hnd : keysNodup l) : keysNodup (l.filter P) := by
  unfold keysNodup at hnd ⊢
  exact List.Nodup.sublist (List.Sublist.map Prod.fst (List.filter_sublist l)) hnd

theorem keysNodup_erase {α : Type} {l : List (String × α)} (k : String)
    (hnd : keysNodup l) : keysNodup (alErase l k) :=
  keysNodup_filter _ hnd

theorem alGet_filter_keep {α : Type} {l : List (String × α)} {c : String} {v : α}
    (P : String × α → Bool) (h : alGet l c = some v)
    (hP : ∀ k : String, P (k, v) = true) :
    alGet (l.filter P) c = some v := by
  induction l with
  | nil => simp [alGet] at h
  | cons p rest ih =>
      by_cases hpc : p.1 = c
      · simp [alGet, hpc] at h
        have hkeep : P p = true := by
          have : p = (p.1, v) := by
            cases p; simp at h ⊢; exact h
          rw [this, hpc]; exact hP c
        simp [List.filter, hkeep, alGet, hpc, h]
      · simp only [alGet, hpc, if_false] at h
        by_cases hkeep : P p = true
        · simp [List.filter, hkeep, alGet, hpc]
          exact ih h
        · simp only [List.filter, Bool.not_eq_true] at hkeep ⊢
          rw [hkeep]
          exact ih h

theorem alGet_filter_of_nodup {α : Type} {l : List (String × α)} {c : String} {v : α}
    (P : String × α → Bool) (hnd : keysNodup l)
    (h : alGet (l.filter P) c = some v) :
    alGet l c = some v ∧ P (c, v) = true := by
  have hmem : (c, v) ∈ l.filter P := alGet_mem h
  have hl : (c, v) ∈ l := List.mem_of_mem_filter hmem
  exact ⟨alGet_of_mem_nodup hnd hl, List.of_mem_filter hmem⟩

theorem alGet_filter_drop_key {α : Type} {l : List (String × α)} {c : String}
    (P : String × α → Bool) (hnd : keysNodup l)
    (h : ∀ v : α, alGet l c = some v → P (c, v) = false) :
    alGet (l.filter P) c = none := by
  cases hval : alGet (l.filter P) c with
  | none => rfl
  | some v =>
      rcases alGet_filter_of_nodup P hnd hval with ⟨hget, hPv⟩
      rw [h v hget] at hPv
      cases hPv

theorem mem_setDiscard (l : List String) (x y : String) :
    y ∈ setDiscard l x ↔ y ∈ l ∧ y ≠ x := by
  simp [setDiscard]

namespace SnippetStateManager

/-! Equation lemmas for `set_state`, one per branch of the Python method. -/

theorem set_state_none (m : SnippetStateManager) (sid : String)
    (cat : Option String) (ex : Bool) :
    m.set_state sid none cat ex =
      { m with
        state_map := alErase m.state_map sid
        selected_ids := setDiscard m.selected_ids sid } := rfl

theorem set_state_sel_pos (m : SnippetStateManager) (sid c : String) (ex : Bool)
    (h : ex = true ∧ c ≠ "") :
    m.set_state sid (some SnippetState.selected) (some c) ex =
      { m with
        state_map := alInsert m.state_map sid SnippetState.selected
        selected_ids := setAdd m.selected_ids sid
        category_selections := alInsert m.category_selections c sid } := by
  simp only [set_state, eq_self_iff_true, if_true]
  rw [if_pos h]

theorem set_state_sel_neg (m : SnippetStateManager) (sid c : String) (ex : Bool)
    (h : ¬ (ex = true ∧ c ≠ "")) :
    m.set_state sid (some SnippetState.selected) (some c) ex =
      { m with
        state_map := alInsert m.state_map sid SnippetState.selected
        selected_ids := setAdd m.selected_ids sid } := by
  simp only [set_state, eq_self_iff_true, if_true]
  rw [if_neg h]

theorem set_state_sel_nocat (m : SnippetStateManager) (sid : String) (ex : Bool) :
    m.set_state sid (some SnippetState.selected) none ex =
      { m with
        state_map := alInsert m.state_map sid SnippetState.selected
        selected_ids := setAdd m.selected_ids sid } := rfl

theorem set_state_unsel_pos (m : SnippetStateManager) (sid c : String) (ex : Bool)
    (h : c ≠ "" ∧ alGet m.category_selections c = some sid) :
    m.set_state sid (some SnippetState.unselected) (some c) ex =
      { m with
        state_map := alInsert m.state_map sid SnippetState.unselected
        selected_ids := setDiscard m.selected_ids sid
        category_selections := alErase m.category_selections c } := by
  simp only [set_state]
  rw [if_neg (by simp), if_pos h]

theorem set_state_unsel_neg (m : SnippetStateManager) (sid c : String) (ex : Bool)
    (h : ¬ (c ≠ "" ∧ alGet m.category_selections c = some sid)) :
    m.set_state sid (some SnippetState.unselected) (some c) ex =
      { m with
        state_map := alInsert m.state_map sid SnippetState.unselected
        selected_ids := setDiscard m.selected_ids sid } := by
  simp only [set_state]
  rw [if_neg (by simp), if_neg h]

theorem set_state_unsel_nocat (m : SnippetStateManager) (sid : String) (ex : Bool) :
    m.set_state sid (some SnippetState.unselected) none ex =
      { m with
        state_map := alInsert m.state_map sid SnippetState.unselected
        selected_ids := setDiscard m.selected_ids sid } := by
  simp only [set_state]
  rw [if_neg (by simp)]

end SnippetStateManager

/-- The loop body of `clear_all_selections` never touches
`category_selections` (it always calls `set_state` with `category=None`). -/
theorem fold_unselect_slots (keys : List String) (acc : SnippetStateManager) :
    ((keys.foldl
        (fun acc snippet_id =>
          if alGet acc.state_map snippet_id = some SnippetState.selected then
            acc.set_state snippet_id (some SnippetState.unselected) none false
          else acc)
        acc).category_selections) = acc.category_selections := by
  induction keys generalizing acc with
  | nil => rfl
  | cons k ks ih =>
      rw [List.foldl_cons, ih]
      by_cases h : alGet acc.state_map k = some SnippetState.selected
      · rw [if_pos h, SnippetStateManager.set_state_unsel_nocat]
      · rw [if_neg h]

/-- After `clear_all_selections`, `category_selections` is empty. -/
theorem clear_all_selections_slots (m : SnippetStateManager) :
    m.clear_all_selections.category_selections = [] := by
  unfold SnippetStateManager.clear_all_selections
  rw [fold_unselect_slots]

/-! ### Holding an exclusive slot (claim C2) -/

theorem can_select_of_slot (m : SnippetStateManager) (sid c v : String)
    (h : alGet m.category_selections c = some v) :
    m.can_select_snippet sid c true = decide (v = sid) := by
  simp [SnippetStateManager.can_select_snippet, h]

theorem can_select_of_no_slot (m : SnippetStateManager) (sid c : String)
    (h : alGet m.category_selections c = none) :
    m.can_select_snippet sid c true = true := by
  simp [SnippetStateManager.can_select_snippet, h]

theorem clear_selections_slot_keep {A c : String} (ids : List String) :
    ∀ m : SnippetStateManager, A ∉ ids →
      alGet m.category_selections c = some A →
      alGet (m.clear_selections ids).category_selections c = some A := by
  induction ids with
  | nil => intro m _ h; exact h
  | cons i is ih =>
      intro m hA h
      have hAi : A ≠ i := fun hh => hA (hh ▸ List.mem_cons_self i is)
      exact ih _ (fun hmem => hA (List.mem_cons_of_mem _ hmem))
        (alGet_filter_keep _ h (fun k => by simp [hAi]))

theorem exclusive_hold_step (m : SnippetStateManager) (A c : String) (op : Op)
    (hslot : alGet m.category_selections c = some A)
    (hok : keepsExclusiveHold m A c op = true) :
    alGet (applyOp m op).category_selections c = some A := by
  cases op with
  | opSetState sid st cat ex =>
      simp only [keepsExclusiveHold, Bool.and_eq_true] at hok
      obtain ⟨h1, h2⟩ := hok
      cases st with
      | none =>
          rw [show applyOp m (Op.opSetState sid none cat ex) = m.set_state sid none cat ex
            from rfl, SnippetStateManager.set_state_none]
          exact hslot
      | some s =>
          cases s with
          | selected =>
              cases cat with
              | none =>
                  rw [show applyOp m (Op.opSetState sid (some SnippetState.selected) none ex) =
                      m.set_state sid (some SnippetState.selected) none ex from rfl,
                    SnippetStateManager.set_state_sel_nocat]
                  exact hslot
              | some cc =>
                  rw [show applyOp m
                      (Op.opSetState sid (some SnippetState.selected) (some cc) ex) =
                      m.set_state sid (some SnippetState.selected) (some cc) ex from rfl]
                  by_cases hcond : ex = true ∧ cc ≠ ""
                  · rw [SnippetStateManager.set_state_sel_pos m sid cc ex hcond]
                    show alGet (alInsert m.category_selections cc sid) c = some A
                    rw [alGet_insert]
                    by_cases hcc : cc = c
                    · subst hcc
                      rw [if_pos rfl]
                      rw [hcond.1] at h2
                      simp only [Bool.not_true, Bool.false_or] at h2
                      have hdec : decide (cc ≠ cc) = false := by simp
                      rw [hdec, Bool.false_or] at h2
                      rw [can_select_of_slot m sid cc A hslot] at h2
                      have : A = sid := of_decide_eq_true h2
                      rw [this]
                    · rw [if_neg hcc]
                      exact hslot
                  · rw [SnippetStateManager.set_state_sel_neg m sid cc ex hcond]
                    exact hslot
          | unselected =>
              have hsid : sid ≠ A := by
                intro hh
                subst hh
                simp at h1
              cases cat with
              | none =>
                  rw [show applyOp m
                      (Op.opSetState sid (some SnippetState.unselected) none ex) =
                      m.set_state sid (some SnippetState.unselected) none ex from rfl,
                    SnippetStateManager.set_state_unsel_nocat]
                  exact hslot
              | some cc =>
                  rw [show applyOp m
                      (Op.opSetState sid (some SnippetState.unselected) (some cc) ex) =
                      m.set_state sid (some SnippetState.unselected) (some cc) ex from rfl]
                  by_cases hcond : cc ≠ "" ∧ alGet m.category_selections cc = some sid
                  · have hccc : cc ≠ c := by
                      intro hh
                      subst hh
                      rw [hslot] at hcond
                      exact hsid (by injection hcond.2 with hinj; exact hinj.symm)
                    rw [SnippetStateManager.set_state_unsel_pos m sid cc ex hcond]
                    show alGet (alErase m.category_selections cc) c = some A
                    rw [alGet_erase, if_neg hccc]
                    exact hslot
                  · rw [SnippetStateManager.set_state_unsel_neg m sid cc ex hcond]
                    exact hslot
  | opClearSelections ids =>
      have hA : A ∉ ids := by simpa [keepsExclusiveHold] using hok
      exact clear_selections_slot_keep ids m hA hslot
  | opClearAllSelections => simp [keepsExclusiveHold] at hok
  | opSetSearchFilter t ids => exact hslot
  | opClearSearchFilter => exact hslot

theorem exclusive_hold_trace (A c : String) (ops : List Op) :
    ∀ m : SnippetStateManager, alGet m.category_selections c = some A →
      holdOkB A c m ops = true →
      alGet (applyOps m ops).category_selections c = some A := by
  induction ops with
  | nil => intro m h _; exact h
  | cons op rest ih =>
      intro m h hok
      simp only [holdOkB, Bool.and_eq_true] at hok
      exact ih (applyOp m op) (exclusive_hold_step m A c op h hok.1) hok.2

theorem can_select_true_iff (m : SnippetStateManager) (sid c : String) (ex : Bool) :
    m.can_select_snippet sid c ex = true ↔
      (ex = false ∨ alGet m.category_selections c = none ∨
        alGet m.category_selections c = some sid) := by
  cases ex with
  | false => simp [SnippetStateManager.can_select_snippet]
  | true =>
      cases h : alGet m.category_selections c with
      | none => simp [SnippetStateManager.can_select_snippet, h]
      | some cur => simp [SnippetStateManager.can_select_snippet, h, eq_comm]

/-- C2 (amended: the category must be non-empty, since Python's truthiness
test `if exclusive and category:` in `set_state` skips recording the
exclusive slot for the empty string). The conjuncts:
1. `can_select_snippet` returns true exactly when not exclusive, or no
   snippet holds the slot for the category, or the slot is held by the
   queried id itself;
2. immediately after `set_state(A, SELECTED, c, exclusive=True)` with
   `c ≠ ""`, `can_select_snippet(B, c, True)` is false for every `B ≠ A`;
3. it stays false along every trace of calls that never deselects or
   removes `A` and issues exclusive selections only through the
   `can_select_snippet` guard;
4. deselecting `A` with its category releases the slot;
5. `clear_all_selections` releases the slot;
6. `clear_selections([A])` releases the slot (on any dict-image state). -/
theorem exclusive_slot_blocks :
    (∀ (m : SnippetStateManager) (sid c : String) (ex : Bool),
        m.can_select_snippet sid c ex = true ↔
          (ex = false ∨ alGet m.category_selections c = none ∨
            alGet m.category_selections c = some sid)) ∧
    (∀ (m : SnippetStateManager) (A B c : String), B ≠ A → c ≠ "" →
        (m.set_state A (some SnippetState.selected) (some c) true).can_select_snippet
          B c true = false) ∧
    (∀ (m : SnippetStateManager) (A B c : String) (ops : List Op), B ≠ A →
        alGet m.category_selections c = some A → holdOkB A c m ops = true →
        (applyOps m ops).can_select_snippet B c true = false) ∧
    (∀ (m : SnippetStateManager) (A B c : String) (ex : Bool),
        c ≠ "" → alGet m.category_selections c = some A →
        (m.set_state A (some SnippetState.unselected) (some c) ex).can_select_snippet
          B c true = true) ∧
    (∀ (m : SnippetStateManager) (B c : String),
        m.clear_all_selections.can_select_snippet B c true = true) ∧
    (∀ (m : SnippetStateManager) (A B c : String),
        keysNodup m.category_selections → alGet m.category_selections c = some A →
        (m.clear_selections [A]).can_select_snippet B c true = true) := by
  refine ⟨can_select_true_iff, ?_, ?_, ?_, ?_, ?_⟩
  · intro m A B c hBA hc
    rw [SnippetStateManager.set_state_sel_pos m A c true ⟨rfl, hc⟩]
    have hslot : alGet (alInsert m.category_selections c A) c = some A := by
      rw [alGet_insert, if_pos rfl]
    rw [can_select_of_slot _ B c A hslot]
    exact decide_eq_false (fun hh => hBA hh.symm)
  · intro m A B c ops hBA hslot hok
    have h := exclusive_hold_trace A c ops m hslot hok
    rw [can_select_of_slot _ B c A h]
    exact decide_eq_false (fun hh => hBA hh.symm)
  · intro m A B c ex hc hslot
    rw [SnippetStateManager.set_state_unsel_pos m A c ex ⟨hc, hslot⟩]
    have hnone : alGet (alErase m.category_selections c) c = none := by
      rw [alGet_erase, if_pos rfl]
    exact can_select_of_no_slot _ B c hnone
  · intro m B c
    apply can_select_of_no_slot
    rw [clear_all_selections_slots]
    rfl
  · intro m A B c hnd hslot
    apply can_select_of_no_slot
    show alGet (m.category_selections.filter (fun p => p.2 ≠ A)) c = none
    apply alGet_filter_drop_key _ hnd
    intro v hv
    rw [hslot] at hv
    injection hv with hv
    simp [hv]

/-- Counterexample to C2 as stated, at the concrete category `c = ""`:
because of Python's truthiness test, `set_state(A, SELECTED, "", True)`
records no exclusive slot, so `can_select_snippet(B, "", True)` stays true
even though A ≠ B was just selected exclusively in that category. -/
theorem exclusive_slot_empty_category_cex :
    (SnippetStateManager.create.set_state "A" (some SnippetState.selected)
        (some "") true).can_select_snippet "B" "" true = true := by decide

/-- Witness for `exclusive_slot_blocks`: a concrete state where A holds the
exclusive slot of category "quality", a concrete guarded trace (selecting an
unrelated snippet, filtering), with every hypothesis discharged by `decide`. -/
theorem exclusive_slot_blocks_witness :
    (applyOps
        (SnippetStateManager.create.set_state "A" (some SnippetState.selected)
          (some "quality") true)
        [Op.opSetState "C" (some SnippetState.selected) (some "style") false,
         Op.opSetSearchFilter "dog" ["A"]]).can_select_snippet "B" "quality" true
      = false :=
  exclusive_slot_blocks.2.2.1
    (SnippetStateManager.create.set_state "A" (some SnippetState.selected)
      (some "quality") true)
    "A" "B" "quality"
    [Op.opSetState "C" (some SnippetState.selected) (some "style") false,
     Op.opSetSearchFilter "dog" ["A"]]
    (by decide) (by decide) (by decide)

theorem selection_invariant_clear_selections (env : SnippetEnv) (ids : List String) :
    ∀ m : SnippetStateManager, SelectionInvariant env m →
      SelectionInvariant env (m.clear_selections ids) := by
  induction ids with
  | nil => intro m h; exact h
  | cons i is ih =>
      intro m hm
      obtain ⟨hnd, hmap⟩ := hm
      apply ih
      constructor
      · exact keysNodup_filter _ hnd
      · intro c s hget
        obtain ⟨horig, hP⟩ :=
          alGet_filter_of_nodup (fun p => p.2 ≠ i) hnd hget
        have hmem := hmap c s horig
        have hsne : s ≠ i := by simpa using hP
        refine ⟨?_, hmem.2⟩
        show s ∈ setDiscard m.selected_ids i
        exact (mem_setDiscard _ _ _).mpr ⟨hmem.1, hsne⟩

theorem selection_invariant_step (env : SnippetEnv) (m : SnippetStateManager)
    (op : Op) (henv : envCategoriesNonempty env)
    (hinv : SelectionInvariant env m) (hop : wellFormedOp env op = true) :
    SelectionInvariant env (applyOp m op) := by
  obtain ⟨hnd, hmap⟩ := hinv
  cases op with
  | opSetState sid st cat ex =>
      cases st with
      | none => simp [wellFormedOp] at hop
      | some s =>
          cases cat with
          | none => simp [wellFormedOp] at hop
          | some c0 =>
              have henvsid : alGet env sid = some (c0, ex) := by
                cases s <;> simpa [wellFormedOp] using hop
              show SelectionInvariant env
                (m.set_state sid (some s) (some c0) ex)
              cases s with
              | selected =>
                  by_cases hcond : ex = true ∧ c0 ≠ ""
                  · rw [SnippetStateManager.set_state_sel_pos m sid c0 ex hcond]
                    constructor
                    · exact keysNodup_insert c0 sid hnd
                    · intro c s hget
                      rw [show alGet
                            ({ m with
                              state_map := alInsert m.state_map sid SnippetState.selected,
                              selected_ids := setAdd m.selected_ids sid,
                              category_selections :=
                                alInsert m.category_selections c0 sid } :
                              SnippetStateManager).category_selections c
                            = alGet (alInsert m.category_selections c0 sid) c from rfl,
                        alGet_insert] at hget
                      by_cases hc : c0 = c
                      · rw [if_pos hc] at hget
                        injection hget with hget
                        subst hget
                        subst hc
                        refine ⟨?_, ?_⟩
                        · show sid ∈ setAdd m.selected_ids sid
                          exact (mem_setAdd _ _ _).mpr (Or.inr rfl)
                        · rw [henvsid, hcond.1]
                      · rw [if_neg hc] at hget
                        have hmem := hmap c s hget
                        refine ⟨?_, hmem.2⟩
                        show s ∈ setAdd m.selected_ids sid
                        exact (mem_setAdd _ _ _).mpr (Or.inl hmem.1)
                  · rw [SnippetStateManager.set_state_sel_neg m sid c0 ex hcond]
                    constructor
                    · exact hnd
                    · intro c s hget
                      have hmem := hmap c s hget
                      refine ⟨?_, hmem.2⟩
                      show s ∈ setAdd m.selected_ids sid
                      exact (mem_setAdd _ _ _).mpr (Or.inl hmem.1)
              | unselected =>
                  by_cases hcond : c0 ≠ "" ∧ alGet m.category_selections c0 = some sid
                  · rw [SnippetStateManager.set_state_unsel_pos m sid c0 ex hcond]
                    constructor
                    · exact keysNodup_erase c0 hnd
                    · intro c s hget
                      rw [show alGet
                            ({ m with
                              state_map := alInsert m.state_map sid SnippetState.unselected,
                              selected_ids := setDiscard m.selected_ids sid,
                              category_selections := alErase m.category_selections c0 } :
                              SnippetStateManager).category_selections c
                            = alGet (alErase m.category_selections c0) c from rfl,
                        alGet_erase] at hget
                      by_cases hc : c0 = c
                      · rw [if_pos hc] at hget
                        cases hget
                      · rw [if_neg hc] at hget
                        have hmem := hmap c s hget
                        have hsne : s ≠ sid := by
                          intro hh
                          subst hh
                          have h2 : (c0, ex) = (c, true) :=
                            Option.some.inj (henvsid.symm.trans hmem.2)
                          exact hc (Prod.mk.inj h2).1
                        refine ⟨?_, hmem.2⟩
                        show s ∈ setDiscard m.selected_ids sid
                        exact (mem_setDiscard _ _ _).mpr ⟨hmem.1, hsne⟩
                  · rw [SnippetStateManager.set_state_unsel_neg m sid c0 ex hcond]
                    constructor
                    · exact hnd
                    · intro c s hget
                      have hmem := hmap c s hget
                      have hsne : s ≠ sid := by
                        intro hh
                        subst hh
                        have h2 : (c0, ex) = (c, true) :=
                          Option.some.inj (henvsid.symm.trans hmem.2)
                        obtain ⟨hc0c, hext⟩ := Prod.mk.inj h2
                        apply hcond
                        constructor
                        · have hpair := alGet_mem hmem.2
                          have := henv _ hpair
                          simpa [← hc0c] using this
                        · rw [hc0c]
                          exact hget
                      refine ⟨?_, hmem.2⟩
                      show s ∈ setDiscard m.selected_ids sid
                      exact (mem_setDiscard _ _ _).mpr ⟨hmem.1, hsne⟩
  | opClearSelections ids =>
      exact selection_invariant_clear_selections env ids m ⟨hnd, hmap⟩
  | opClearAllSelections =>
      show SelectionInvariant env m.clear_all_selections
      constructor
      · show keysNodup m.clear_all_selections.category_selections
        rw [clear_all_selections_slots]
        exact List.nodup_nil
      · intro c s hget
        rw [show (m.clear_all_selections.category_selections : List (String × String)) = []
          from clear_all_selections_slots m] at hget
        cases hget
  | opSetSearchFilter t ids => exact ⟨hnd, hmap⟩
  | opClearSearchFilter => exact ⟨hnd, hmap⟩

theorem selection_invariant_trace (env : SnippetEnv) (ops : List Op)
    (henv : envCategoriesNonempty env) :
    ∀ m : SnippetStateManager, SelectionInvariant env m →
      ops.all (wellFormedOp env) = true →
      SelectionInvariant env (applyOps m ops) := by
  induction ops with
  | nil => intro m h _; exact h
  | cons op rest ih =>
      intro m hm hall
      simp only [List.all_cons, Bool.and_eq_true] at hall
      exact ih (applyOp m op)
        (selection_invariant_step env m op henv hm hall.1) hall.2

/-- C1 (amended): starting from `create()`, along every trace of mutating
calls in which each `set_state` call carries a concrete (non-`None`) state
together with the snippet's own category and exclusive flag — which is how
`src/gui/snippet_list.py` always calls it — and in which no snippet category
is the empty string, every entry `c ↦ s` of `category_selections` has `s` in
`selected_ids`, `s`'s category equal to `c`, and `s` exclusive.
`set_state` with `state=None` is excluded: it violates the invariant (see
`stale_category_selection_cex`). -/
theorem selection_invariant_reachable (env : SnippetEnv) (ops : List Op)
    (henv : envCategoriesNonempty env)
    (hops : ops.all (wellFormedOp env) = true) :
    SelectionInvariant env (applyOps SnippetStateManager.create ops) := by
  apply selection_invariant_trace env ops henv
  · constructor
    · exact List.nodup_nil
    · intro c s hget
      cases hget
  · exact hops

/-- Counterexample to C1 as stated: the claim includes `set_state` with
`state=None` among the invariant-preserving mutating calls, but that call
removes the snippet from `selected_ids` without cleaning
`category_selections`, leaving a stale slot entry whose snippet is no longer
selected. -/
theorem stale_category_selection_cex :
    alGet (applyOps SnippetStateManager.create
        [Op.opSetState "A" (some SnippetState.selected) (some "quality") true,
         Op.opSetState "A" none none false]).category_selections "quality"
      = some "A" ∧
    "A" ∉ (applyOps SnippetStateManager.create
        [Op.opSetState "A" (some SnippetState.selected) (some "quality") true,
         Op.opSetState "A" none none false]).selected_ids := by
  constructor
  · rfl
  · decide

/-- Witness for `selection_invariant_reachable` at a concrete universe and
trace (select two snippets, delete one, clear the search filter). -/
theorem selection_invariant_reachable_witness :
    SelectionInvariant [("A", "quality", true), ("B", "style", false)]
      (applyOps SnippetStateManager.create
        [Op.opSetState "A" (some SnippetState.selected) (some "quality") true,
         Op.opSetState "B" (some SnippetState.selected) (some "style") false,
         Op.opClearSelections ["B"],
         Op.opClearSearchFilter]) :=
  selection_invariant_reachable
    [("A", "quality", true), ("B", "style", false)]
    [Op.opSetState "A" (some SnippetState.selected) (some "quality") true,
     Op.opSetState "B" (some SnippetState.selected) (some "style") false,
     Op.opClearSelections ["B"],
     Op.opClearSearchFilter]
    (by decide) (by decide)

/-- C9: the two search-filter calls leave all three selection fields
untouched by construction. -/
theorem set_search_filter_frame (m : SnippetStateManager) (t : String)
    (ids : List String) :
    ((m.set_search_filter t ids).state_map = m.state_map ∧
      (m.set_search_filter t ids).selected_ids = m.selected_ids ∧
      (m.set_search_filter t ids).category_selections = m.category_selections) ∧
    (m.clear_search_filter.state_map = m.state_map ∧
      m.clear_search_filter.selected_ids = m.selected_ids ∧
      m.clear_search_filter.category_selections = m.category_selections) :=
  ⟨⟨rfl, rfl, rfl⟩, ⟨rfl, rfl, rfl⟩⟩

/-- C10: with `exclusive=False`, `can_select_snippet` ignores the state
entirely and returns `True`. -/
theorem can_select_nonexclusive (m : SnippetStateManager) (snippet_id category : String) :
    m.can_select_snippet snippet_id category false = true :=
  rfl

/-- C3 (amended): in AND mode the category conjunct requires the whole set
of active category filters to be contained in the singleton
`{snippet['category']}` — i.e. every active category filter must equal the
snippet's category, not merely contain it — while the label conjunct is as
the claim states; the claim's concrete example (single active filters)
behaves as stated in both modes. -/
theorem bubble_filter_and_mode :
    (∀ (snips : List GuiSnippet) (cats labs : List String) (sid : String),
        sid ∈ get_filtered_ids snips cats labs "AND" ↔
          ∃ s ∈ snips, s.id = sid ∧
            (cats = [] ∨ ∀ c ∈ cats, c = s.category) ∧
            (labs = [] ∨ ∀ lab ∈ labs, lab ∈ s.labels)) ∧
    get_filtered_ids
      [⟨"s1", "s1", "X", "p", ["a"], false⟩, ⟨"s2", "s2", "Y", "p", ["a", "b"], false⟩]
      ["X"] ["b"] "AND" = [] ∧
    get_filtered_ids
      [⟨"s1", "s1", "X", "p", ["a"], false⟩, ⟨"s2", "s2", "Y", "p", ["a", "b"], false⟩]
      ["X"] ["b"] "OR" = ["s1", "s2"] := by
  refine ⟨?_, by decide, by decide⟩
  intro snips cats labs sid
  by_cases hempty : cats = [] ∧ labs = []
  · rw [get_filtered_ids, if_pos hempty]
    obtain ⟨hc, hl⟩ := hempty
    subst hc
    subst hl
    simp [List.mem_map, eq_comm]
  · rw [get_filtered_ids, if_neg hempty]
    simp only [List.mem_map, List.mem_filter]
    constructor
    · rintro ⟨s, ⟨hs, hcondition⟩, hid⟩
      refine ⟨s, hs, hid, ?_⟩
      rw [if_pos (by trivial)] at hcondition
      simp only [Bool.and_eq_true, decide_eq_true_eq] at hcondition
      exact hcondition
    · rintro ⟨s, hs, hid, hcondition⟩
      refine ⟨s, ⟨hs, ?_⟩, hid⟩
      rw [if_pos (by trivial)]
      simp only [Bool.and_eq_true, decide_eq_true_eq]
      exact hcondition

/-- Counterexample to C3 as stated: with TWO active category filters
`{"X","Y"}` and no label filters, the claim's reading (category "X" is
among the active filters, so `s1` matches) disagrees with the code, whose
`issubset({"X"})` test fails, yielding the empty set. -/
theorem bubble_filter_among_cex :
    ("X" ∈ (["X", "Y"] : List String) ∧
      ((["X", "Y"] : List String) = [] ∨ "X" ∈ (["X", "Y"] : List String))) ∧
    get_filtered_ids [⟨"s1", "s1", "X", "p", ["a"], false⟩] ["X", "Y"] [] "AND"
      = [] := by
  constructor
  · exact ⟨by decide, Or.inr (by decide)⟩
  · decide

/-- C7 (amended): the characterization — the query matches a snippet iff the
lowercased query text is a substring of the name, category, prompt text or a
label, lowercased as stored or with underscores turned into spaces — holds
for the `text_matching_ids` set computed by `_on_search_changed` (the
recomputation on every search-text change, with or without bubble filters
active); the `_apply_bubble_filters` recomputation omits the
underscore-to-space variants (see `text_search_bubble_path_cex`).
In particular a snippet named `"foo_bar"` matches the query `"foo bar"`. -/
theorem text_search_characterization :
    (∀ (q : String) (snips : List GuiSnippet) (sid : String),
        sid ∈ on_search_changed_text_ids q snips ↔
          ∃ s ∈ snips, s.id = sid ∧ specTextMatch q s) ∧
    text_match_on_search_changed "foo bar"
      ⟨"s1", "foo_bar", "cat", "p", [], false⟩ = true := by
  constructor
  · intro q snips sid
    have hmatch : ∀ s : GuiSnippet,
        text_match_on_search_changed q s = true ↔ specTextMatch q s := by
      intro s
      simp only [text_match_on_search_changed, specTextMatch, specFieldMatch,
        Bool.or_eq_true, List.any_eq_true, List.mem_map]
      constructor
      · intro h
        rcases h with (((((((h | h) | h) | ⟨lab, ⟨l0, hl0, hh⟩, h⟩) | h) | h) | h) |
            ⟨lab, hlab, h⟩)
        · exact Or.inl (Or.inr h)
        · exact Or.inr (Or.inl (Or.inr h))
        · exact Or.inr (Or.inr (Or.inl (Or.inr h)))
        · exact Or.inr (Or.inr (Or.inr ⟨l0, hl0, Or.inr (hh ▸ h)⟩))
        · exact Or.inl (Or.inl h)
        · exact Or.inr (Or.inl (Or.inl h))
        · exact Or.inr (Or.inr (Or.inl (Or.inl h)))
        · exact Or.inr (Or.inr (Or.inr ⟨lab, hlab, Or.inl h⟩))
      · intro h
        rcases h with (h | h) | ((h | h) | ((h | h) | ⟨lab, hlab, h | h⟩))
        · exact Or.inl (Or.inl (Or.inl (Or.inr h)))
        · exact Or.inl (Or.inl (Or.inl (Or.inl (Or.inl (Or.inl (Or.inl h))))))
        · exact Or.inl (Or.inl (Or.inr h))
        · exact Or.inl (Or.inl (Or.inl (Or.inl (Or.inl (Or.inl (Or.inr h))))))
        · exact Or.inl (Or.inr h)
        · exact Or.inl (Or.inl (Or.inl (Or.inl (Or.inl (Or.inr h)))))
        · exact Or.inr ⟨lab, hlab, h⟩
        · exact Or.inl (Or.inl (Or.inl (Or.inl (Or.inr
            ⟨pyReplaceChar (pyLower lab) '_' ' ', ⟨lab, hlab, rfl⟩, h⟩))))
    simp only [on_search_changed_text_ids, List.mem_map, List.mem_filter]
    constructor
    · rintro ⟨s, ⟨hs, hcondition⟩, hid⟩
      exact ⟨s, hs, hid, (hmatch s).mp hcondition⟩
    · rintro ⟨s, hs, hid, hcondition⟩
      exact ⟨s, ⟨hs, (hmatch s).mpr hcondition⟩, hid⟩
  · decide

/-- Counterexample to C7 as stated: when the text filter is recomputed by
`_apply_bubble_filters` (toggling a bubble while a query is active), the
underscore-to-space variants are NOT checked, so the very same query and
snippet produce a different text-matching id set than on the
`_on_search_changed` path. -/
theorem text_search_bubble_path_cex :
    on_search_changed_text_ids "foo bar"
      [⟨"s1", "foo_bar", "c", "p", [], false⟩] = ["s1"] ∧
    apply_bubble_filters_text_ids "foo bar"
      [⟨"s1", "foo_bar", "c", "p", [], false⟩] = [] := by
  constructor
  · decide
  · decide

/-! ### Lookup over appended records -/

theorem alGet_append_left {α : Type} {l l2 : List (String × α)} {k : String}
    (h : (alGet l k).isSome = true) : alGet (l ++ l2) k = alGet l k := by
  induction l with
  | nil => simp [alGet] at h
  | cons p rest ih =>
      by_cases hpk : p.1 = k
      · simp [alGet, hpk]
      · simp only [alGet, hpk, if_false] at h ⊢
        exact ih h

theorem alGet_append_right {α : Type} {l l2 : List (String × α)} {k : String}
    (h : alGet l k = none) : alGet (l ++ l2) k = alGet l2 k := by
  induction l with
  | nil => rfl
  | cons p rest ih =>
      by_cases hpk : p.1 = k
      · simp [alGet, hpk] at h
      · simp only [alGet, hpk, if_false] at h ⊢
        exact ih h

theorem alGet_constMap_of_mem {α : Type} (v : α) {ids : List String} {i : String}
    (h : i ∈ ids) : alGet (ids.map (fun j => (j, v))) i = some v := by
  induction ids with
  | nil => simp at h
  | cons j rest ih =>
      by_cases hji : j = i
      · simp [alGet, hji]
      · rcases List.mem_cons.mp h with h | h
        · exact absurd h.symm hji
        · simp only [List.map_cons, alGet, hji, if_false]
          exact ih h

/-! ### Claim C6: update of a missing id -/

/-- C6: when no stored snippet has the target id, `update_snippet` returns
`False` and the state — snippets, every metadata record, every usage
count — is exactly the input state (the function returns before its first
mutation). -/
theorem update_snippet_missing_id (st : DMState) (data_id : String)
    (data : SnippetData) (h : ∀ s ∈ st.snippets, s.id ≠ data_id) :
    update_snippet data_id data st = (false, st) := by
  have hfind : st.snippets.find? (fun s => s.id = data_id) = none := by
    rw [List.find?_eq_none]
    intro s hs
    simp [h s hs]
  unfold update_snippet
  rw [hfind]

/-- Witness for `update_snippet_missing_id` at a concrete one-snippet store. -/
theorem update_snippet_missing_id_witness :
    update_snippet "missing" wData wStore = (false, wStore) :=
  update_snippet_missing_id wStore "missing" wData (by decide)

/-! ### Claim C5: the semicolon check lives in the dialog, not in `add_snippet` -/

/-- Counterexample to C5 as stated: `DataManager.add_snippet` performs no
semicolon check — a record whose prompt text contains `';'` is accepted
(`True`) and stored, metadata mutations included. -/
theorem add_snippet_semicolon_cex :
    (add_snippet semicolonData emptyStore).1 = true ∧
    (add_snippet semicolonData emptyStore).2.snippets.length = 1 ∧
    pyHasChar semicolonData.prompt_text ';' = true := by
  refine ⟨by decide, by decide, by decide⟩

/-- C5 (amended): the semicolon rejection happens in the dialog layer —
`_prepare_result` returns `False` (no result record is produced, so no
mutation can follow) whenever the stripped prompt contains `';'` — while
`DataManager.add_snippet` itself performs no semicolon check and stores any
record whose category sanitizes. -/
theorem semicolon_rejected_in_dialog :
    (∀ (sid : Option String) (name_var category_var labels_var prompt_var : String)
        (ex : Bool),
        pyHasChar (pyStrip prompt_var) ';' = true →
        prepare_result sid name_var category_var labels_var prompt_var ex = none) ∧
    (∀ (data : SnippetData) (st : DMState),
        (sanitize_category_label data.category true).isSome = true →
        (add_snippet data st).1 = true ∧
        (add_snippet data st).2.snippets.length = st.snippets.length + 1) := by
  constructor
  · intro sid nv cv lv pv ex h
    unfold prepare_result
    by_cases hval : validate_fields nv cv pv = false
    · rw [if_pos hval]
    · rw [if_neg hval]
      simp only [h, if_true]
  · intro data st hsan
    obtain ⟨cat, hcat⟩ := Option.isSome_iff_exists.mp hsan
    unfold add_snippet
    rw [hcat]
    exact ⟨rfl, by simp⟩

/-- Witness for `semicolon_rejected_in_dialog`. -/
theorem semicolon_rejected_in_dialog_witness :
    prepare_result none "n" "c" "" "bad; prompt" false = none ∧
    (add_snippet wData emptyStore).1 = true := by
  constructor
  · exact semicolon_rejected_in_dialog.1 none "n" "c" "" "bad; prompt" false
      (by decide)
  · exact (semicolon_rejected_in_dialog.2 wData emptyStore (by decide)).1

/-! ### Claim C8: orphan healing in `validate_metadata_references` -/

theorem foldl_mem_preserve {β : Type} (f : List String → β → List String)
    (hf : ∀ acc x i, i ∈ acc → i ∈ f acc x) :
    ∀ (l : List β) (acc : List String) (i : String), i ∈ acc → i ∈ l.foldl f acc := by
  intro l
  induction l with
  | nil => intro acc i h; exact h
  | cons x xs ih =>
      intro acc i h
      exact ih (f acc x) i (hf acc x i h)

theorem orphan_cat_step_preserves (meta : Metadata) (acc : List String)
    (s : SnippetRec) (i : String) (h : i ∈ acc) :
    i ∈ (if s.category_id ≠ "" ∧ alGet meta.categories s.category_id = none ∧
          s.category_id ∉ acc
        then acc ++ [s.category_id] else acc) := by
  by_cases hc : s.category_id ≠ "" ∧ alGet meta.categories s.category_id = none ∧
      s.category_id ∉ acc
  · rw [if_pos hc]; exact List.mem_append_left _ h
  · rw [if_neg hc]; exact h

theorem orphan_lab_step_preserves (meta : Metadata) (acc : List String)
    (lids : List String) (i : String) (h : i ∈ acc) :
    i ∈ lids.foldl
      (fun acc2 lid =>
        if alGet meta.labels lid = none ∧ lid ∉ acc2
        then acc2 ++ [lid] else acc2) acc := by
  apply foldl_mem_preserve _ _ lids acc i h
  intro acc2 lid j hj
  by_cases hc : alGet meta.labels lid = none ∧ lid ∉ acc2
  · rw [if_pos hc]; exact List.mem_append_left _ hj
  · rw [if_neg hc]; exact hj

theorem mem_collectOrphanCategoryIds {snips : List SnippetRec} {meta : Metadata}
    {s : SnippetRec} (hs : s ∈ snips) (hne : s.category_id ≠ "")
    (hnone : alGet meta.categories s.category_id = none) :
    s.category_id ∈ collectOrphanCategoryIds snips meta := by
  unfold collectOrphanCategoryIds
  have main : ∀ (l : List SnippetRec) (acc : List String), s ∈ l →
      s.category_id ∈ l.foldl
        (fun acc t =>
          if t.category_id ≠ "" ∧ alGet meta.categories t.category_id = none ∧
              t.category_id ∉ acc
          then acc ++ [t.category_id] else acc) acc := by
    intro l
    induction l with
    | nil => intro acc h; simp at h
    | cons t ts ih =>
        intro acc h
        rw [List.foldl_cons]
        rcases List.mem_cons.mp h with h | h
        · subst h
          apply foldl_mem_preserve _ (fun acc2 x j => orphan_cat_step_preserves meta acc2 x j)
          by_cases hin : s.category_id ∈ acc
          · exact orphan_cat_step_preserves meta acc s _ hin
          · rw [if_pos ⟨hne, hnone, hin⟩]
            exact List.mem_append_right _ (List.mem_singleton.mpr rfl)
        · exact ih _ h
  exact main snips [] hs

theorem mem_collectOrphanLabelIds {snips : List SnippetRec} {meta : Metadata}
    {s : SnippetRec} {lid : String} (hs : s ∈ snips) (hl : lid ∈ s.label_ids)
    (hnone : alGet meta.labels lid = none) :
    lid ∈ collectOrphanLabelIds snips meta := by
  unfold collectOrphanLabelIds
  have inner : ∀ (lids : List String) (acc : List String), lid ∈ lids →
      lid ∈ lids.foldl
        (fun acc2 l2 =>
          if alGet meta.labels l2 = none ∧ l2 ∉ acc2
          then acc2 ++ [l2] else acc2) acc := by
    intro lids
    induction lids with
    | nil => intro acc h; simp at h
    | cons l2 ls ih =>
        intro acc h
        rw [List.foldl_cons]
        rcases List.mem_cons.mp h with h | h
        · subst h
          apply foldl_mem_preserve
          · intro acc2 x j hj
            by_cases hc : alGet meta.labels x = none ∧ x ∉ acc2
            · rw [if_pos hc]; exact List.mem_append_left _ hj
            · rw [if_neg hc]; exact hj
          · by_cases hin : lid ∈ acc
            · by_cases hc : alGet meta.labels lid = none ∧ lid ∉ acc
              · rw [if_pos hc]; exact List.mem_append_left _ hin
              · rw [if_neg hc]; exact hin
            · rw [if_pos ⟨hnone, hin⟩]
              exact List.mem_append_right _ (List.mem_singleton.mpr rfl)
        · exact ih _ h
  have main : ∀ (l : List SnippetRec) (acc : List String), s ∈ l →
      lid ∈ l.foldl
        (fun acc t => t.label_ids.foldl
          (fun acc2 l2 =>
            if alGet meta.labels l2 = none ∧ l2 ∉ acc2
            then acc2 ++ [l2] else acc2) acc) acc := by
    intro l
    induction l with
    | nil => intro acc h; simp at h
    | cons t ts ih =>
        intro acc h
        rw [List.foldl_cons]
        rcases List.mem_cons.mp h with h | h
        · subst h
          apply foldl_mem_preserve _
            (fun acc2 x j hj => orphan_lab_step_preserves meta acc2 x.label_ids j hj)
          exact inner s.label_ids acc hl
        · exact ih _ h
  exact main snips [] hs

/-- C8 (amended): every snippet reference with a NON-EMPTY `category_id`,
and every `label_id` (no falsiness guard on the label side), that has no
matching metadata record gets a synthesized "Unknown Category" /
"Unknown Label" record with `usage_count` 0 under that same id; records
that already existed are untouched, so every subsequent lookup for a
referenced (non-empty) id succeeds. The snippet list itself is never
touched and no failure path exists. -/
theorem validate_references_heals (snips : List SnippetRec) (meta : Metadata) :
    (∀ s ∈ snips, s.category_id ≠ "" →
        (alGet (validate_metadata_references snips meta).categories
          s.category_id).isSome = true) ∧
    (∀ s ∈ snips, s.category_id ≠ "" →
        alGet meta.categories s.category_id = none →
        alGet (validate_metadata_references snips meta).categories s.category_id =
          some { name := "Unknown Category", sort_order := 5, color := none,
                 usage_count := 0 }) ∧
    (∀ s ∈ snips, ∀ lid ∈ s.label_ids,
        (alGet (validate_metadata_references snips meta).labels lid).isSome
          = true) ∧
    (∀ s ∈ snips, ∀ lid ∈ s.label_ids, alGet meta.labels lid = none →
        alGet (validate_metadata_references snips meta).labels lid =
          some { name := "Unknown Label", usage_count := 0 }) ∧
    (∀ i, (alGet meta.categories i).isSome = true →
        alGet (validate_metadata_references snips meta).categories i =
          alGet meta.categories i) ∧
    (∀ i, (alGet meta.labels i).isSome = true →
        alGet (validate_metadata_references snips meta).labels i =
          alGet meta.labels i) := by
  have hcatOrphan : ∀ s ∈ snips, s.category_id ≠ "" →
      alGet meta.categories s.category_id = none →
      alGet (validate_metadata_references snips meta).categories s.category_id =
        some { name := "Unknown Category", sort_order := 5, color := none,
               usage_count := 0 } := by
    intro s hs hne hnone
    show alGet (meta.categories ++ _) s.category_id = _
    rw [alGet_append_right hnone]
    exact alGet_constMap_of_mem _ (mem_collectOrphanCategoryIds hs hne hnone)
  have hlabOrphan : ∀ s ∈ snips, ∀ lid ∈ s.label_ids,
      alGet meta.labels lid = none →
      alGet (validate_metadata_references snips meta).labels lid =
        some { name := "Unknown Label", usage_count := 0 } := by
    intro s hs lid hl hnone
    show alGet (meta.labels ++ _) lid = _
    rw [alGet_append_right hnone]
    exact alGet_constMap_of_mem _ (mem_collectOrphanLabelIds hs hl hnone)
  have hcatKeep : ∀ i, (alGet meta.categories i).isSome = true →
      alGet (validate_metadata_references snips meta).categories i =
        alGet meta.categories i := by
    intro i hi
    show alGet (meta.categories ++ _) i = _
    exact alGet_append_left hi
  have hlabKeep : ∀ i, (alGet meta.labels i).isSome = true →
      alGet (validate_metadata_references snips meta).labels i =
        alGet meta.labels i := by
    intro i hi
    show alGet (meta.labels ++ _) i = _
    exact alGet_append_left hi
  refine ⟨?_, hcatOrphan, ?_, hlabOrphan, hcatKeep, hlabKeep⟩
  · intro s hs hne
    cases hcase : alGet meta.categories s.category_id with
    | some it => rw [hcatKeep _ (by rw [hcase]; rfl), hcase]; rfl
    | none => rw [hcatOrphan s hs hne hcase]; rfl
  · intro s hs lid hl
    cases hcase : alGet meta.labels lid with
    | some it => rw [hlabKeep _ (by rw [hcase]; rfl), hcase]; rfl
    | none => rw [hlabOrphan s hs lid hl hcase]; rfl

/-- Witness for `validate_references_heals`: a snippet referencing an
unknown category id and an unknown label id gets both placeholder records. -/
theorem validate_references_heals_witness :
    alGet (validate_metadata_references [wOrphanSnippet] emptyMeta).categories
        "cid9" =
      some { name := "Unknown Category", sort_order := 5, color := none,
             usage_count := 0 } ∧
    alGet (validate_metadata_references [wOrphanSnippet] emptyMeta).labels
        "lid3" =
      some { name := "Unknown Label", usage_count := 0 } := by
  constructor
  · exact (validate_references_heals [wOrphanSnippet] emptyMeta).2.1
      wOrphanSnippet (by decide) (by decide) (by decide)
  · exact (validate_references_heals [wOrphanSnippet] emptyMeta).2.2.2.1
      wOrphanSnippet (by decide) "lid3" (by decide) (by decide)

/-- Counterexample to C8 as stated: a snippet whose `category_id` is the
empty string (which has no matching metadata record) gets NO placeholder —
the falsy-guard `if category_id and ...` skips it, and the metadata comes
back unchanged, so the claimed record under that id does not exist. -/
theorem validate_references_empty_category_id_cex :
    validate_metadata_references
        [{ id := "s1", name := "n", category_id := "", prompt_text := "p",
           label_ids := [], exclusive := false }] emptyMeta = emptyMeta ∧
    alGet (validate_metadata_references
        [{ id := "s1", name := "n", category_id := "", prompt_text := "p",
           label_ids := [], exclusive := false }] emptyMeta).categories ""
      = none := by
  refine ⟨by decide, by decide⟩

/-! ### Claim C4: metadata bookkeeping lemmas -/

theorem genId_injective {a b : Nat} (h : genId a = genId b) : a = b := by
  unfold genId at h
  injection h with h2
  have := congrArg List.length h2
  simp only [List.length_replicate] at this
  omega

theorem alGet_adjustCount {α : Type} (upd : α → α) (l : List (String × α))
    (i j : String) :
    alGet (adjustCount upd l i) j =
      if i = j then (alGet l j).map upd else alGet l j := by
  induction l with
  | nil => by_cases hij : i = j <;> simp [adjustCount, alGet, hij]
  | cons p rest ih =>
      simp only [adjustCount]
      by_cases hpi : p.1 = i
      · rw [if_pos hpi]
        by_cases hpj : p.1 = j
        · have hij : i = j := by rw [← hpi, hpj]
          simp [alGet, hpj, hij]
        · have hij : ¬ i = j := fun h => hpj (by rw [← hpi] at h; rw [h])
          simp [alGet, hpj, hij, ih]
      · rw [if_neg hpi]
        by_cases hpj : p.1 = j
        · have hij : ¬ i = j := fun h => hpi (by rw [h, hpj])
          simp [alGet, hpj, hij]
        · simp [alGet, hpj, ih]

theorem keys_adjustCount {α : Type} (upd : α → α) (l : List (String × α))
    (i : String) :
    (adjustCount upd l i).map Prod.fst = l.map Prod.fst := by
  induction l with
  | nil => rfl
  | cons p rest ih =>
      simp only [adjustCount]
      by_cases hpi : p.1 = i <;> simp [hpi, ih]

theorem findIdByName_adjustCount {α : Type} (getName : α → String) (upd : α → α)
    (l : List (String × α)) (i n : String)
    (hname : ∀ it, getName (upd it) = getName it) :
    findIdByName getName (adjustCount upd l i) n = findIdByName getName l n := by
  induction l with
  | nil => rfl
  | cons p rest ih =>
      by_cases hpi : p.1 = i
      · simp only [adjustCount, List.map_cons, if_pos hpi]
        simp only [findIdByName, hname]
        by_cases hn : getName p.2 = n
        · simp [hn, hpi]
        · simp only [hn, if_false]
          simpa [adjustCount] using ih
      · simp only [adjustCount, List.map_cons, if_neg hpi]
        simp only [findIdByName]
        by_cases hn : getName p.2 = n
        · simp [hn]
        · simp only [hn, if_false]
          simpa [adjustCount] using ih

theorem findIdByName_append_left {α : Type} (getName : α → String)
    {l l2 : List (String × α)} {n : String} {i : String}
    (h : findIdByName getName l n = some i) :
    findIdByName getName (l ++ l2) n = some i := by
  induction l with
  | nil => simp [findIdByName] at h
  | cons p rest ih =>
      by_cases hn : getName p.2 = n
      · simp [findIdByName, hn] at h ⊢; exact h
      · simp only [findIdByName, hn, if_false, List.cons_append] at h ⊢
        exact ih h

theorem findIdByName_append_right {α : Type} (getName : α → String)
    {l : List (String × α)} (l2 : List (String × α)) {n : String}
    (h : findIdByName getName l n = none) :
    findIdByName getName (l ++ l2) n = findIdByName getName l2 n := by
  induction l with
  | nil => rfl
  | cons p rest ih =>
      by_cases hn : getName p.2 = n
      · simp [findIdByName, hn] at h
      · simp only [findIdByName, hn, if_false, List.cons_append] at h ⊢
        exact ih h

theorem findIdByName_mem {α : Type} (getName : α → String)
    {l : List (String × α)} {n : String} {i : String}
    (h : findIdByName getName l n = some i) :
    ∃ it : α, (i, it) ∈ l ∧ getName it = n := by
  induction l with
  | nil => simp [findIdByName] at h
  | cons p rest ih =>
      by_cases hn : getName p.2 = n
      · simp only [findIdByName, hn, if_pos rfl] at h
        injection h with h
        exact ⟨p.2, by rw [← h]; exact List.mem_cons_self _ _, hn⟩
      · simp only [findIdByName, hn, if_false] at h
        obtain ⟨it, hmem, hit⟩ := ih h
        exact ⟨it, List.mem_cons_of_mem _ hmem, hit⟩

theorem keysNodup_append_singleton {α : Type} {l : List (String × α)}
    {k : String} (v : α) (hnd : keysNodup l) (hk : k ∉ l.map Prod.fst) :
    keysNodup (l ++ [(k, v)]) := by
  unfold keysNodup at hnd ⊢
  rw [List.map_append, List.nodup_append]
  exact ⟨hnd, List.nodup_singleton _, by simpa using hk⟩

/-! Folds of label-count increments / decrements. -/

theorem labels_foldl_inc_categories (lids : List String) :
    ∀ meta : Metadata,
      (lids.foldl increment_label_count meta).categories = meta.categories := by
  induction lids with
  | nil => intro meta; rfl
  | cons i rest ih => intro meta; rw [List.foldl_cons, ih]; rfl

theorem labels_foldl_dec_categories (lids : List String) :
    ∀ meta : Metadata,
      (lids.foldl decrement_label_count meta).categories = meta.categories := by
  induction lids with
  | nil => intro meta; rfl
  | cons i rest ih => intro meta; rw [List.foldl_cons, ih]; rfl

theorem labels_foldl_inc_get (lids : List String) :
    ∀ (meta : Metadata) (j : String),
      alGet (lids.foldl increment_label_count meta).labels j =
        (alGet meta.labels j).map
          (fun it => { name := it.name,
                       usage_count := it.usage_count + lids.count j }) := by
  induction lids with
  | nil =>
      intro meta j
      cases h : alGet meta.labels j <;> simp [h]
  | cons i rest ih =>
      intro meta j
      rw [List.foldl_cons, ih]
      show (alGet (adjustCount labIncr meta.labels i) j).map _ = _
      rw [alGet_adjustCount]
      by_cases hij : i = j
      · rw [if_pos hij]
        cases h : alGet meta.labels j with
        | none => simp [h]
        | some it =>
            simp only [Option.map_some', labIncr]
            congr 1
            congr 1
            rw [List.count_cons, if_pos (show (i == j) = true by simp [hij])]
            omega
      · rw [if_neg hij]
        have hji : ¬ (j = i) := fun hh => hij hh.symm
        cases h : alGet meta.labels j <;>
          simp [h, List.count_cons, hji]

theorem labels_foldl_dec_get (lids : List String) :
    ∀ (meta : Metadata) (j : String),
      alGet (lids.foldl decrement_label_count meta).labels j =
        (alGet meta.labels j).map
          (fun it => { name := it.name,
                       usage_count := it.usage_count - lids.count j }) := by
  induction lids with
  | nil =>
      intro meta j
      cases h : alGet meta.labels j <;> simp [h]
  | cons i rest ih =>
      intro meta j
      rw [List.foldl_cons, ih]
      show (alGet (adjustCount labDecr meta.labels i) j).map _ = _
      rw [alGet_adjustCount]
      by_cases hij : i = j
      · rw [if_pos hij]
        cases h : alGet meta.labels j with
        | none => simp [h]
        | some it =>
            simp only [Option.map_some', labDecr]
            congr 1
            congr 1
            rw [List.count_cons, if_pos (show (i == j) = true by simp [hij])]
            omega
      · rw [if_neg hij]
        have hji : ¬ (j = i) := fun hh => hij hh.symm
        cases h : alGet meta.labels j <;>
          simp [h, List.count_cons, hji]

theorem labels_foldl_inc_find (lids : List String) :
    ∀ (meta : Metadata) (n : String),
      findIdByName LabelItem.name (lids.foldl increment_label_count meta).labels n =
        findIdByName LabelItem.name meta.labels n := by
  induction lids with
  | nil => intro meta n; rfl
  | cons i rest ih =>
      intro meta n
      rw [List.foldl_cons, ih]
      exact findIdByName_adjustCount _ _ _ _ _ (fun it => rfl)

theorem ensure_category_spec (meta : Metadata) (ctr : Nat) (catName : String)
    (hnd : keysNodup meta.categories)
    (hfresh : genId ctr ∉ meta.categories.map Prod.fst) :
    (ensure_category_exists meta ctr catName).2.1.labels = meta.labels ∧
    keysNodup (ensure_category_exists meta ctr catName).2.1.categories ∧
    ctr ≤ (ensure_category_exists meta ctr catName).2.2 ∧
    (ensure_category_exists meta ctr catName).2.2 ≤ ctr + 1 ∧
    (∃ it : CategoryItem,
        alGet (ensure_category_exists meta ctr catName).2.1.categories
          (ensure_category_exists meta ctr catName).1 = some it ∧
        it.name = catName) ∧
    findIdByName CategoryItem.name
      (ensure_category_exists meta ctr catName).2.1.categories catName =
      some (ensure_category_exists meta ctr catName).1 ∧
    (∀ i, (alGet meta.categories i).isSome = true →
        alGet (ensure_category_exists meta ctr catName).2.1.categories i =
          alGet meta.categories i) := by
  cases hfind : findIdByName CategoryItem.name meta.categories catName with
  | some cid =>
      have he : ensure_category_exists meta ctr catName = (cid, meta, ctr) := by
        simp [ensure_category_exists, hfind]
      rw [he]
      obtain ⟨it, hmem, hit⟩ := findIdByName_mem _ hfind
      exact ⟨rfl, hnd, Nat.le_refl _, Nat.le_succ _,
        ⟨it, alGet_of_mem_nodup hnd hmem, hit⟩, hfind, fun i _ => rfl⟩
  | none =>
      have he : ensure_category_exists meta ctr catName =
          (genId ctr,
            { meta with categories := meta.categories ++
                [(genId ctr, { name := catName, sort_order := 5, color := none,
                               usage_count := 0 })] },
            ctr + 1) := by
        simp [ensure_category_exists, hfind]
      rw [he]
      have hget : alGet meta.categories (genId ctr) = none :=
        alGet_none_of_not_mem_keys hfresh
      refine ⟨rfl, keysNodup_append_singleton _ hnd hfresh, Nat.le_succ _,
        Nat.le_refl _, ⟨?_, ?_, fun i hi => alGet_append_left hi⟩⟩
      · refine ⟨{ name := catName, sort_order := 5, color := none,
                  usage_count := 0 }, ?_, rfl⟩
        show alGet (meta.categories ++ _) (genId ctr) = _
        rw [alGet_append_right hget]
        simp [alGet]
      · show findIdByName CategoryItem.name (meta.categories ++ _) catName = _
        rw [findIdByName_append_right _ _ hfind]
        simp [findIdByName]

theorem ensure_labels_spec : ∀ (names : List String) (meta : Metadata) (ctr : Nat),
    keysNodup meta.labels →
    (∀ j, j < names.length → genId (ctr + j) ∉ meta.labels.map Prod.fst) →
    (ensure_labels_exist meta ctr names).2.1.categories = meta.categories ∧
    keysNodup (ensure_labels_exist meta ctr names).2.1.labels ∧
    ctr ≤ (ensure_labels_exist meta ctr names).2.2 ∧
    (ensure_labels_exist meta ctr names).2.2 ≤ ctr + names.length ∧
    (∃ extras, (ensure_labels_exist meta ctr names).2.1.labels =
        meta.labels ++ extras) ∧
    (∀ i, (alGet meta.labels i).isSome = true →
        alGet (ensure_labels_exist meta ctr names).2.1.labels i =
          alGet meta.labels i) ∧
    List.Forall₂ (fun n i =>
        (∃ it : LabelItem,
            alGet (ensure_labels_exist meta ctr names).2.1.labels i = some it ∧
            it.name = n) ∧
        findIdByName LabelItem.name
          (ensure_labels_exist meta ctr names).2.1.labels n = some i)
      names (ensure_labels_exist meta ctr names).1 := by
  intro names
  induction names with
  | nil =>
      intro meta ctr hnd _
      have he : ensure_labels_exist meta ctr [] = ([], meta, ctr) := by
        rw [ensure_labels_exist]
      rw [he]
      exact ⟨rfl, hnd, Nat.le_refl _, by simp, ⟨[], by simp⟩,
        fun i _ => rfl, List.Forall₂.nil⟩
  | cons n rest ih =>
      intro meta ctr hnd hfresh
      cases hfind : findIdByName LabelItem.name meta.labels n with
      | some i0 =>
          have hstep : ensure_label_exists meta ctr n = (i0, meta, ctr) := by
            simp [ensure_label_exists, hfind]
          have hunfold : ensure_labels_exist meta ctr (n :: rest) =
              ((ensure_label_exists meta ctr n).1 ::
                  (ensure_labels_exist meta ctr rest).1,
                (ensure_labels_exist meta ctr rest).2.1,
                (ensure_labels_exist meta ctr rest).2.2) := by
            rw [ensure_labels_exist, hstep]
          rw [hunfold, hstep]
          have hfresh2 : ∀ j, j < rest.length →
              genId (ctr + j) ∉ meta.labels.map Prod.fst :=
            fun j hj => hfresh j (Nat.lt_succ_of_lt hj)
          obtain ⟨hcat, hnd2, hle1, hle2, hext, hpres, hfa⟩ :=
            ih meta ctr hnd hfresh2
          obtain ⟨it0, hmem0, hname0⟩ := findIdByName_mem _ hfind
          have hget0 : alGet meta.labels i0 = some it0 :=
            alGet_of_mem_nodup hnd hmem0
          refine ⟨hcat, hnd2, hle1,
            Nat.le_trans hle2 (by simp only [List.length_cons]; omega),
            hext, hpres, ?_⟩
          refine List.Forall₂.cons ⟨⟨it0, ?_, hname0⟩, ?_⟩ hfa
          · rw [hpres i0 (by rw [hget0]; rfl)]
            exact hget0
          · obtain ⟨extras, hex⟩ := hext
            rw [hex]
            exact findIdByName_append_left _ hfind
      | none =>
          have hfresh0 : genId ctr ∉ meta.labels.map Prod.fst := by
            have := hfresh 0 (by simp)
            rwa [Nat.add_zero] at this
          have hstep : ensure_label_exists meta ctr n =
              (genId ctr,
                { meta with labels := meta.labels ++
                    [(genId ctr, { name := n, usage_count := 0 })] },
                ctr + 1) := by
            simp [ensure_label_exists, hfind]
          have hunfold : ensure_labels_exist meta ctr (n :: rest) =
              ((ensure_label_exists meta ctr n).1 ::
                  (ensure_labels_exist (ensure_label_exists meta ctr n).2.1
                    (ensure_label_exists meta ctr n).2.2 rest).1,
                (ensure_labels_exist (ensure_label_exists meta ctr n).2.1
                  (ensure_label_exists meta ctr n).2.2 rest).2.1,
                (ensure_labels_exist (ensure_label_exists meta ctr n).2.1
                  (ensure_label_exists meta ctr n).2.2 rest).2.2) := by
            rw [ensure_labels_exist]
          rw [hunfold, hstep]
          dsimp only
          have hnd1 : keysNodup (meta.labels ++
              [(genId ctr, ({ name := n, usage_count := 0 } : LabelItem))]) :=
            keysNodup_append_singleton _ hnd hfresh0
          have hfresh1 : ∀ j, j < rest.length →
              genId (ctr + 1 + j) ∉ (meta.labels ++
                [(genId ctr, ({ name := n, usage_count := 0 } : LabelItem))]).map
                  Prod.fst := by
            intro j hj
            rw [List.map_append]
            intro hmem
            rcases List.mem_append.mp hmem with h | h
            · have h1 : genId (ctr + (1 + j)) ∉ meta.labels.map Prod.fst :=
                hfresh (1 + j) (by simp only [List.length_cons]; omega)
              rw [show ctr + 1 + j = ctr + (1 + j) from by omega] at h
              exact h1 h
            · simp only [List.map_cons, List.map_nil, List.mem_singleton] at h
              have := genId_injective h
              omega
          obtain ⟨hcat, hnd2, hle1, hle2, hext, hpres, hfa⟩ :=
            ih { meta with labels := meta.labels ++
              [(genId ctr, { name := n, usage_count := 0 })] } (ctr + 1) hnd1
              hfresh1
          have hm1get : alGet (meta.labels ++
              [(genId ctr, ({ name := n, usage_count := 0 } : LabelItem))])
              (genId ctr) = some { name := n, usage_count := 0 } := by
            rw [alGet_append_right (alGet_none_of_not_mem_keys hfresh0)]
            simp [alGet]
          have hm1find : findIdByName LabelItem.name (meta.labels ++
              [(genId ctr, ({ name := n, usage_count := 0 } : LabelItem))]) n =
              some (genId ctr) := by
            rw [findIdByName_append_right _ _ hfind]
            simp [findIdByName]
          refine ⟨hcat, hnd2, by omega, by simp only [List.length_cons]; omega,
            ?_, ?_, ?_⟩
          · obtain ⟨extras, hex⟩ := hext
            exact ⟨[(genId ctr, { name := n, usage_count := 0 })] ++ extras,
              by rw [hex]; simp⟩
          · intro i hi
            have hL : alGet (meta.labels ++
                [(genId ctr, ({ name := n, usage_count := 0 } : LabelItem))]) i =
                alGet meta.labels i := alGet_append_left hi
            rw [hpres i (by rw [hL]; exact hi), hL]
          · refine List.Forall₂.cons ⟨⟨{ name := n, usage_count := 0 }, ?_, rfl⟩,
              ?_⟩ hfa
            · rw [hpres (genId ctr) (by rw [hm1get]; rfl)]
              exact hm1get
            · obtain ⟨extras, hex⟩ := hext
              rw [hex]
              exact findIdByName_append_left _ hm1find

theorem ensure_labels_exist_found :
    ∀ {names ids : List String} {meta : Metadata},
      List.Forall₂ (fun n i =>
        findIdByName LabelItem.name meta.labels n = some i) names ids →
      ∀ ctr : Nat, ensure_labels_exist meta ctr names = (ids, meta, ctr) := by
  intro names ids meta h
  induction h with
  | nil => intro ctr; rw [ensure_labels_exist]
  | @cons a b l1 l2 h1 h2 ih =>
      intro ctr
      rw [ensure_labels_exist]
      have hstep : ensure_label_exists meta ctr a = (b, meta, ctr) := by
        simp [ensure_label_exists, h1]
      rw [hstep]
      dsimp only
      rw [ih ctr]

theorem get_label_names_forall (meta : Metadata) :
    ∀ {labs lids : List String},
      List.Forall₂ (fun n i => ∃ it : LabelItem,
        alGet meta.labels i = some it ∧ it.name = n) labs lids →
      lids.filterMap (fun lid => (alGet meta.labels lid).map LabelItem.name)
        = labs := by
  intro labs lids h
  induction h with
  | nil => rfl
  | cons h1 h2 ih =>
      obtain ⟨it, hget, hname⟩ := h1
      simp [List.filterMap_cons, hget, hname, ih]

theorem contains_singleton (x y : String) : ([x].contains y) = (y == x) := by
  cases h : (y == x) <;> simp [List.contains, List.elem, h]

theorem catDecr_catIncr (it : CategoryItem) : catDecr (catIncr it) = it := by
  cases it
  simp [catIncr, catDecr]

/-- C4: `add_snippet(d)` followed by `delete_snippets([id of the new
snippet])` returns every pre-existing category and label record — its
usage_count in particular — to its pre-add value, and restores the snippet
list; the freshly generated ids (category/label records possibly created by
the add keep existing with count 0) must be fresh, which holds for real
UUIDs with overwhelming probability and is hypothesis `hfresh`. The new
snippet's id is the last id the add drew, `genId (ctr' - 1)`. -/
theorem add_delete_roundtrip (st : DMState) (data : SnippetData)
    (hndC : keysNodup st.meta.categories)
    (hndL : keysNodup st.meta.labels)
    (hsan : (sanitize_category_label data.category true).isSome = true)
    (hfresh : ∀ j, j < data.labels.length + 2 →
        genId (st.ctr + j) ∉ st.snippets.map SnippetRec.id ∧
        genId (st.ctr + j) ∉ st.meta.categories.map Prod.fst ∧
        genId (st.ctr + j) ∉ st.meta.labels.map Prod.fst) :
    (add_snippet data st).1 = true ∧
    (delete_snippets [genId ((add_snippet data st).2.ctr - 1)]
        (add_snippet data st).2).2.snippets = st.snippets ∧
    (∀ i, (alGet st.meta.categories i).isSome = true →
        alGet (delete_snippets [genId ((add_snippet data st).2.ctr - 1)]
            (add_snippet data st).2).2.meta.categories i =
          alGet st.meta.categories i) ∧
    (∀ i, (alGet st.meta.labels i).isSome = true →
        alGet (delete_snippets [genId ((add_snippet data st).2.ctr - 1)]
            (add_snippet data st).2).2.meta.labels i =
          alGet st.meta.labels i) := by
  obtain ⟨cat, hcat⟩ := Option.isSome_iff_exists.mp hsan
  rcases hrcEq : ensure_category_exists st.meta st.ctr cat with ⟨cid, meta1, ctr1⟩
  have hfreshC : genId st.ctr ∉ st.meta.categories.map Prod.fst := by
    have := (hfresh 0 (by omega)).2.1
    rwa [Nat.add_zero] at this
  have spec_c := ensure_category_spec st.meta st.ctr cat hndC hfreshC
  rw [hrcEq] at spec_c
  obtain ⟨hc_lab, hc_nd, hc_le1, hc_le2, ⟨itC, hc_get, hc_name⟩, hc_find,
    hc_pres⟩ := spec_c
  dsimp only at hc_lab hc_nd hc_le1 hc_le2 hc_get hc_find hc_pres
  set labs := data.labels.map
    (fun lab => (sanitize_category_label lab false).getD "") with hlabsdef
  have hlablen : labs.length = data.labels.length := by
    rw [hlabsdef]
    exact List.length_map _ _
  have hndL1 : keysNodup meta1.labels := by
    rw [hc_lab]
    exact hndL
  have hfreshL1 : ∀ j, j < labs.length →
      genId (ctr1 + j) ∉ meta1.labels.map Prod.fst := by
    intro j hj
    rw [hc_lab]
    have hj2 : j < data.labels.length := by rw [← hlablen]; exact hj
    have hd : ctr1 + j = st.ctr + (ctr1 - st.ctr + j) := by omega
    rw [hd]
    exact (hfresh (ctr1 - st.ctr + j) (by omega)).2.2
  rcases hrlEq : ensure_labels_exist meta1 ctr1 labs with ⟨lids, meta2, ctr2⟩
  have spec_l := ensure_labels_spec labs meta1 ctr1 hndL1 hfreshL1
  rw [hrlEq] at spec_l
  obtain ⟨hl_cat, hl_nd, hl_le1, hl_le2, ⟨extras, hl_ext⟩, hl_pres, hl_fa⟩ :=
    spec_l
  dsimp only at hl_cat hl_nd hl_le1 hl_le2 hl_ext hl_pres hl_fa
  have hfun_inc : (fun (mm : Metadata) (lid : String) =>
      if (true : Bool) = true then increment_label_count mm lid
      else decrement_label_count mm lid) = increment_label_count := by
    funext mm lid
    simp
  have hupd : update_snippet_counts_for_snippet st.meta st.ctr cat labs true =
      ((cid, lids),
        lids.foldl increment_label_count (increment_category_count meta2 cid),
        ctr2) := by
    unfold update_snippet_counts_for_snippet
    rw [hrcEq]
    dsimp only
    rw [hrlEq]
    dsimp only
    rw [hfun_inc, if_pos rfl]
  have hadd : add_snippet data st =
      (true,
        { snippets := st.snippets ++
            [{ id := genId ctr2, name := data.name, category_id := cid,
               prompt_text := data.prompt_text, label_ids := lids,
               exclusive := data.exclusive }],
          meta := lids.foldl increment_label_count
            (increment_category_count meta2 cid),
          ctr := ctr2 + 1 }) := by
    unfold add_snippet
    rw [hcat]
    dsimp only
    rw [← hlabsdef]
    unfold snippet_create
    rw [hupd]
  set snip : SnippetRec :=
    { id := genId ctr2, name := data.name, category_id := cid,
      prompt_text := data.prompt_text, label_ids := lids,
      exclusive := data.exclusive } with hsnipdef
  set metaB := lids.foldl increment_label_count
    (increment_category_count meta2 cid) with hmetaBdef
  have hctr : (add_snippet data st).2.ctr = ctr2 + 1 := by rw [hadd]
  have hnewid : genId ((add_snippet data st).2.ctr - 1) = genId ctr2 := by
    rw [hctr, Nat.add_sub_cancel]
  have hsnipfresh : ∀ s ∈ st.snippets, (s.id = genId ctr2) → False := by
    intro s hs heq
    have hbound : ctr2 - st.ctr < data.labels.length + 2 := by omega
    have hmem : genId (st.ctr + (ctr2 - st.ctr)) ∈ st.snippets.map
        SnippetRec.id := by
      rw [show st.ctr + (ctr2 - st.ctr) = ctr2 from by omega, ← heq]
      exact List.mem_map.mpr ⟨s, hs, rfl⟩
    exact (hfresh _ hbound).1 hmem
  have hcontains_old : ∀ s ∈ st.snippets,
      ([genId ctr2].contains s.id) = false := by
    intro s hs
    rw [contains_singleton, beq_eq_false_iff_ne]
    exact fun hh => hsnipfresh s hs hh
  have hcontains_snip : ([genId ctr2].contains snip.id) = true := by
    rw [contains_singleton]
    simp [hsnipdef]
  have hfilter_del : (st.snippets ++ [snip]).filter
      (fun s => [genId ctr2].contains s.id) = [snip] := by
    rw [List.filter_append]
    rw [List.filter_eq_nil_iff.mpr (fun a ha => by
      rw [hcontains_old a ha]
      exact Bool.false_ne_true)]
    simp [List.filter_cons, hcontains_snip]
  have hfilter_keep : (st.snippets ++ [snip]).filter
      (fun s => !([genId ctr2].contains s.id)) = st.snippets := by
    rw [List.filter_append]
    rw [List.filter_eq_self.mpr (fun a ha => by rw [hcontains_old a ha]; rfl)]
    simp [List.filter_cons, hcontains_snip]
  have hcatsB : metaB.categories = adjustCount catIncr meta2.categories cid := by
    rw [hmetaBdef, labels_foldl_inc_categories]
    rfl
  have hgetCid : alGet metaB.categories cid = some (catIncr itC) := by
    rw [hcatsB, alGet_adjustCount, if_pos rfl, hl_cat, hc_get]
    rfl
  have hname : get_category_name snip metaB = cat := by
    unfold get_category_name
    rw [show snip.category_id = cid from by rw [hsnipdef], hgetCid]
    exact hc_name
  have hfaB : List.Forall₂ (fun n i => ∃ it : LabelItem,
      alGet metaB.labels i = some it ∧ it.name = n) labs lids := by
    refine List.Forall₂.imp ?_ hl_fa
    intro n i h
    obtain ⟨⟨it, hget, hn⟩, hfind2⟩ := h
    refine ⟨{ name := it.name, usage_count := it.usage_count + lids.count i },
      ?_, hn⟩
    rw [hmetaBdef, labels_foldl_inc_get,
      show (increment_category_count meta2 cid).labels = meta2.labels from rfl,
      hget]
    rfl
  have hnames : get_label_names snip metaB = labs := by
    unfold get_label_names
    rw [show snip.label_ids = lids from by rw [hsnipdef]]
    exact get_label_names_forall metaB hfaB
  have hfindBcat : findIdByName CategoryItem.name metaB.categories cat =
      some cid := by
    rw [hcatsB, findIdByName_adjustCount CategoryItem.name catIncr
      meta2.categories cid cat (fun it => rfl), hl_cat]
    exact hc_find
  have hensure_catB : ∀ c, ensure_category_exists metaB c cat =
      (cid, metaB, c) := by
    intro c
    simp [ensure_category_exists, hfindBcat]
  have hfindBlab : List.Forall₂ (fun n i =>
      findIdByName LabelItem.name metaB.labels n = some i) labs lids := by
    refine List.Forall₂.imp ?_ hl_fa
    intro n i h
    rw [hmetaBdef, labels_foldl_inc_find,
      show (increment_category_count meta2 cid).labels = meta2.labels from rfl]
    exact h.2
  have hfun_dec : (fun (mm : Metadata) (lid : String) =>
      if (false : Bool) = true then increment_label_count mm lid
      else decrement_label_count mm lid) = decrement_label_count := by
    funext mm lid
    simp
  have hdelsnip : ∀ c, snippet_delete snip metaB c =
      (lids.foldl decrement_label_count (decrement_category_count metaB cid),
        c) := by
    intro c
    unfold snippet_delete update_snippet_counts_for_snippet
    rw [hname, hnames, hensure_catB]
    dsimp only
    rw [ensure_labels_exist_found hfindBlab]
    dsimp only
    rw [hfun_dec, if_neg (by simp)]
  have hdel : delete_snippets [genId ctr2] (add_snippet data st).2 =
      (true,
        { snippets := st.snippets,
          meta := lids.foldl decrement_label_count
            (decrement_category_count metaB cid),
          ctr := ctr2 + 1 }) := by
    rw [hadd]
    unfold delete_snippets
    dsimp only
    rw [hfilter_del, hfilter_keep]
    rw [show ([snip].foldl (fun acc s => snippet_delete s acc.1 acc.2)
        (metaB, ctr2 + 1)) = snippet_delete snip metaB (ctr2 + 1) from rfl]
    rw [hdelsnip]
  refine ⟨by rw [hadd], ?_, ?_, ?_⟩
  · rw [hnewid, hdel]
  · intro i hi
    rw [hnewid, hdel]
    dsimp only
    rw [labels_foldl_dec_categories,
      show (decrement_category_count metaB cid).categories =
        adjustCount catDecr metaB.categories cid from rfl, hcatsB]
    by_cases hci : cid = i
    · subst hci
      rw [alGet_adjustCount, if_pos rfl, alGet_adjustCount, if_pos rfl,
        hl_cat, hc_pres cid hi]
      cases h2 : alGet st.meta.categories cid with
      | none => rfl
      | some it =>
          simp only [Option.map_some']
          rw [catDecr_catIncr]
    · rw [alGet_adjustCount, if_neg hci, alGet_adjustCount, if_neg hci,
        hl_cat, hc_pres i hi]
  · intro i hi
    rw [hnewid, hdel]
    dsimp only
    rw [labels_foldl_dec_get,
      show (decrement_category_count metaB cid).labels = metaB.labels from rfl,
      hmetaBdef, labels_foldl_inc_get,
      show (increment_category_count meta2 cid).labels = meta2.labels from rfl]
    have hm1 : alGet meta1.labels i = alGet st.meta.labels i := by rw [hc_lab]
    rw [hl_pres i (by rw [hm1]; exact hi), hm1]
    cases h2 : alGet st.meta.labels i with
    | none => rfl
    | some it =>
        simp only [Option.map_some']
        refine congrArg some ?_
        cases it
        simp

/-- Witness for `add_delete_roundtrip` at a concrete store: the existing
category record (count 3) and label record (count 2) come back unchanged
after add-then-delete. -/
theorem add_delete_roundtrip_witness :
    (add_snippet wRoundData wRoundStore).1 = true ∧
    (delete_snippets [genId ((add_snippet wRoundData wRoundStore).2.ctr - 1)]
        (add_snippet wRoundData wRoundStore).2).2.snippets =
      wRoundStore.snippets ∧
    (∀ i, (alGet wRoundStore.meta.categories i).isSome = true →
        alGet (delete_snippets
            [genId ((add_snippet wRoundData wRoundStore).2.ctr - 1)]
            (add_snippet wRoundData wRoundStore).2).2.meta.categories i =
          alGet wRoundStore.meta.categories i) ∧
    (∀ i, (alGet wRoundStore.meta.labels i).isSome = true →
        alGet (delete_snippets
            [genId ((add_snippet wRoundData wRoundStore).2.ctr - 1)]
            (add_snippet wRoundData wRoundStore).2).2.meta.labels i =
          alGet wRoundStore.meta.labels i) :=
  add_delete_roundtrip wRoundStore wRoundData (by decide) (by decide)
    (by decide) (by decide)

end PromptSnippets
